import Mathlib

/-!
# Verification of the `lua-patterns` library

A shallow embedding of the `lua-patterns` crate (a Rust binding to Lua 5.2
string patterns) together with proofs about it.

The Rust façade (`src/lib.rs`) delegates the actual matching to a C function
`str_match` linked from the static library `lua-str`; that C source is not
among the given files, so the matching engine below is *modelled from the
spec* (sections 4.1–4.3 and 7 of the specification), which describes the
recursive backtracking interpreter, its capture conventions and its error
table.  All convenience-layer functions (`gmatch`, `gsub`, `gsub_with`,
`gsub_bytes_with`, `first_capture`, the pattern builder, hex helpers) are
translated directly from `src/lib.rs`.

Conventions:
* subjects and patterns are byte lists (`List Nat`, each entry `< 256` in
  real executions; no arithmetic here depends on the bound except where a
  claim states it);
* machine integers are idealized: capture spans are emitted as `Int × Int`
  mirroring the C `LuaMatch { start: c_int, end: c_int }`, with the
  position-capture sentinel `end = -1` required by the spec; Rust's
  `as usize` cast of a `c_int` is modelled by `usizeOfInt`, which preserves
  the two's-complement behaviour on the `-1` sentinel;
* the unbounded `while` loops of the source are modelled with an explicit
  fuel argument; every call site supplies fuel that is sufficient for every
  terminating execution of the source (each loop iteration strictly
  increases a cursor bounded by the pattern or subject length), so fuel
  exhaustion coincides with the source's non-termination.
-/

namespace LuaPat

/-- Pattern errors, one per row of the §7 error table. -/
inductive PatErr where
  | endsPercent          -- "malformed pattern (ends with '%')"
  | missingRBracket      -- "malformed pattern (missing ']')"
  | unfinishedCap        -- "unfinished capture"
  | invalidPatCapture    -- "invalid pattern capture"
  | missingLBracketF     -- "missing '[' after '%f' in pattern"
  | missingArgsB         -- "malformed pattern (missing arguments to '%b')"
  | invalidCapIndex (n : Nat)  -- "invalid capture index %n"
  | tooManyCaptures      -- "too many captures"
  deriving DecidableEq, Repr

/-- Computations that may raise a pattern error (the C code longjmps with a
message; the Rust wrapper turns it into a panic or an `Err`). -/
abbrev M (α : Type) := Except PatErr α

/-- Bytes of a Rust string literal. -/
def strBytes (s : String) : List Nat := s.data.map Char.toNat

/-- Rust's `c_int as usize` on an idealized `c_int`: nonnegative values pass
through, negative values wrap modulo `2^64` (so the `-1` position sentinel
becomes `usize::MAX`). -/
def usizeOfInt (i : Int) : Nat := if i < 0 then (i + 2 ^ 64).toNat else i.toNat

/-- Rust's `&buf[a..b]` slice of a byte buffer (total model). -/
def sliceLE (l : List Nat) (a b : Nat) : List Nat := (l.take b).drop a

/-! ## ASCII classifiers (locale-independent, spec §4.1) -/

def isalphaB (c : Nat) : Bool := (65 ≤ c && c ≤ 90) || (97 ≤ c && c ≤ 122)
def isdigitB (c : Nat) : Bool := 48 ≤ c && c ≤ 57
def islowerB (c : Nat) : Bool := 97 ≤ c && c ≤ 122
def isupperB (c : Nat) : Bool := 65 ≤ c && c ≤ 90
def isspaceB (c : Nat) : Bool := (9 ≤ c && c ≤ 13) || c == 32
def isalnumB (c : Nat) : Bool := isalphaB c || isdigitB c
def ispunctB (c : Nat) : Bool :=
  (33 ≤ c && c ≤ 47) || (58 ≤ c && c ≤ 64) || (91 ≤ c && c ≤ 96) || (123 ≤ c && c ≤ 126)
def iscntrlB (c : Nat) : Bool := c ≤ 31 || c == 127
def isxdigitB (c : Nat) : Bool := isdigitB c || (65 ≤ c && c ≤ 70) || (97 ≤ c && c ≤ 102)
def tolowerB (c : Nat) : Nat := if isupperB c then c + 32 else c

/-- Modelled from the spec: `match_class` — membership of byte `c` in the
predefined class named by byte `cl` (`%a %c %d %l %p %s %u %w %x` and their
negations); a non-letter `cl` matches itself literally (escaped magic
byte). -/
def classMatch (c cl : Nat) : Bool :=
  let res? : Option Bool :=
    match tolowerB cl with
    | 97  => some (isalphaB c)   -- 'a'
    | 99  => some (iscntrlB c)   -- 'c'
    | 100 => some (isdigitB c)   -- 'd'
    | 108 => some (islowerB c)   -- 'l'
    | 112 => some (ispunctB c)   -- 'p'
    | 115 => some (isspaceB c)   -- 's'
    | 117 => some (isupperB c)   -- 'u'
    | 119 => some (isalnumB c)   -- 'w'
    | 120 => some (isxdigitB c)  -- 'x'
    | _   => none
  match res? with
  | some r => if isupperB cl then !r else r
  | none => cl == c

/-! ## Captures -/

/-- State of one capture slot: still open, a position capture, or closed at a
subject offset. -/
inductive CapStop where
  | unfinished
  | position
  | closed (e : Nat)
  deriving DecidableEq, Repr

/-- One capture slot: opening offset plus its state. -/
structure Capture where
  st : Nat
  stop : CapStop
  deriving DecidableEq, Repr

/-- Hard limit on capture slots (spec §3: `MAX_CAPTURES = 32`). -/
def MAXCAPTURES : Nat := 32

/-- Index of the last (most recently opened) element of `l` satisfying `f`. -/
def lastIdxWhereAux {α : Type} (f : α → Bool) : List α → Nat → Option Nat
  | [], _ => none
  | a :: rest, i =>
    match lastIdxWhereAux f rest (i + 1) with
    | some j => some j
    | none => if f a then some i else none

/-- Index of the last element of `l` satisfying `f`, if any. -/
def lastIdxWhere {α : Type} (f : α → Bool) (l : List α) : Option Nat :=
  lastIdxWhereAux f l 0

/-! ## Pattern scanning (modelled from the spec, §4.1 and §7)

`classEnd` finds the end of the single-byte matcher starting at `p`
(a literal, `.`, a `%`-escape, or a `[set]`), raising the §7 errors for a
trailing `%` or an unclosed set. -/

/-- Scan for the closing `]` of a set, starting at the first member byte.
Fuel `patt.length + 1` is sufficient: the cursor strictly increases, and the
scan fails with the §7 "missing `]`" error at the end of the pattern. -/
def seekSetEnd (patt : List Nat) : Nat → Nat → M Nat
  | 0, _ => .error .missingRBracket
  | fuel + 1, q =>
    if q < patt.length then
      let q1 := q + 1
      let q2 := if patt.getD q 0 == 37 && q1 < patt.length then q1 + 1 else q1
      if q2 < patt.length && patt.getD q2 0 == 93 then .ok (q2 + 1)
      else seekSetEnd patt fuel q2
    else .error .missingRBracket

/-- Modelled from the spec: position just after the class element at `p`. -/
def classEnd (patt : List Nat) (p : Nat) : M Nat :=
  let c := patt.getD p 0
  if c == 37 then
    if p + 1 < patt.length then .ok (p + 2) else .error .endsPercent
  else if c == 91 then
    seekSetEnd patt (patt.length + 1) (if patt.getD (p + 1) 0 == 94 then p + 2 else p + 1)
  else .ok (p + 1)

/-- Scan the members of a set (first member at `q`, closing `]` at `ec`)
for one matching byte `c`: plain bytes, `%`-escapes/classes, `a-b` ranges. -/
def matchClassInSet (patt : List Nat) (ec : Nat) (c : Nat) : Nat → Nat → Bool
  | 0, _ => false
  | fuel + 1, q =>
    if q < ec then
      let b := patt.getD q 0
      if b == 37 then
        if classMatch c (patt.getD (q + 1) 0) then true
        else matchClassInSet patt ec c fuel (q + 2)
      else if patt.getD (q + 1) 0 == 45 && q + 2 < ec then
        if b ≤ c && c ≤ patt.getD (q + 2) 0 then true
        else matchClassInSet patt ec c fuel (q + 3)
      else if b == c then true
      else matchClassInSet patt ec c fuel (q + 1)
    else false

/-- Membership of byte `c` in the set whose `[` is at `p` and whose `]` is at
`ec`, honouring a leading `^` negation. -/
def matchBracketClass (patt : List Nat) (c : Nat) (p ec : Nat) : Bool :=
  let neg := patt.getD (p + 1) 0 == 94
  let q0 := if neg then p + 2 else p + 1
  if matchClassInSet patt ec c (ec + 1) q0 then !neg else neg

/-- Does the single-byte matcher `[p, ep)` match the subject byte at `s`?
Always false at the end of the subject. -/
def singlematch (patt subj : List Nat) (s p ep : Nat) : Bool :=
  if s < subj.length then
    let c := subj.getD s 0
    let pc := patt.getD p 0
    if pc == 46 then true
    else if pc == 37 then classMatch c (patt.getD (p + 1) 0)
    else if pc == 91 then matchBracketClass patt c p (ep - 1)
    else pc == c
  else false

/-! ## Balanced match and back-references (spec §4.3 steps 6–7) -/

/-- Scan forward from `s` keeping a nesting depth (`+1` on `b`, `-1` on `e`);
return the offset just past the closing `e` when the depth returns to zero.
Fuel `subj.length + 1` is sufficient (the cursor strictly increases). -/
def balanceScan (subj : List Nat) (b e : Nat) : Nat → Nat → Nat → Option Nat
  | 0, _, _ => none
  | fuel + 1, s, cont =>
    let s1 := s + 1
    if s1 < subj.length then
      let c := subj.getD s1 0
      if c == e then
        if cont == 1 then some (s1 + 1)
        else balanceScan subj b e fuel s1 (cont - 1)
      else if c == b then balanceScan subj b e fuel s1 (cont + 1)
      else balanceScan subj b e fuel s1 cont
    else none

/-- Modelled from the spec: `%bxy` with `x` at pattern offset `p`.  Raises the
§7 "missing arguments" error when fewer than two bytes follow `%b`. -/
def matchbalance (patt subj : List Nat) (s p : Nat) : M (Option Nat) :=
  if p + 1 < patt.length then
    if s < subj.length && subj.getD s 0 == patt.getD p 0 then
      .ok (balanceScan subj (patt.getD p 0) (patt.getD (p + 1) 0) (subj.length + 1) s 1)
    else .ok none
  else .error .missingArgsB

/-- Modelled from the spec: back-reference `%d` (digit byte `d`).  The
referenced capture must exist and be closed, else the §7 "invalid capture
index" error; a position capture never matches; otherwise the captured bytes
must occur verbatim at `s`. -/
def matchCapture (subj : List Nat) (caps : List Capture) (s : Nat) (d : Nat) : M (Option Nat) :=
  if 49 ≤ d && d - 49 < caps.length then
    let cap := caps.getD (d - 49) ⟨0, .unfinished⟩
    match cap.stop with
    | .unfinished => .error (.invalidCapIndex (d - 48))
    | .position => .ok none
    | .closed e =>
      let l := e - cap.st
      if s + l ≤ subj.length && sliceLE subj cap.st e == sliceLE subj s (s + l) then
        .ok (some (s + l))
      else .ok none
  else .error (.invalidCapIndex (d - 48))

/-! ## The matcher (modelled from the spec, §4.3)

`domatch patt subj fuel s p caps` interprets the pattern from offset `p`
against the subject from offset `s`, with capture stack `caps`.  It returns
`some (s', caps')` on success (`s'` the end of the match), `none` on failure,
or a `PatErr`.  Every recursive call strictly increases `p`, so fuel
`patt.length + 1` (supplied by `matchLoop`) is sufficient. -/

/-- Greedy backtracking: try the continuation after `i, i-1, …, 0` extra
repetitions starting at `s`. -/
def tryBack (cont : Nat → M (Option (Nat × List Capture))) (s : Nat) :
    Nat → M (Option (Nat × List Capture))
  | 0 => cont s
  | i + 1 =>
    match cont (s + i + 1) with
    | .error e => .error e
    | .ok (some r) => .ok (some r)
    | .ok none => tryBack cont s i

/-- Length of the maximal run of bytes from `s` matching a single-byte
matcher.  Fuel `subj.length + 1` is sufficient. -/
def runLen (patt subj : List Nat) (p ep : Nat) : Nat → Nat → Nat
  | 0, _ => 0
  | fuel + 1, s => if singlematch patt subj s p ep then runLen patt subj p ep fuel (s + 1) + 1 else 0

/-- Lazy expansion: try the continuation at `s`, then extend one byte at a
time while the single-byte matcher allows.  Fuel `subj.length + 1` is
sufficient. -/
def minLoop (patt subj : List Nat) (p ep : Nat) (cont : Nat → M (Option (Nat × List Capture))) :
    Nat → Nat → M (Option (Nat × List Capture))
  | 0, _ => .ok none
  | fuel + 1, s =>
    match cont s with
    | .error e => .error e
    | .ok (some r) => .ok (some r)
    | .ok none =>
      if singlematch patt subj s p ep then minLoop patt subj p ep cont fuel (s + 1)
      else .ok none

/-- Modelled from the spec: the recursive backtracking matcher (`match` in
the C engine). -/
def domatch (patt subj : List Nat) : Nat → Nat → Nat → List Capture → M (Option (Nat × List Capture))
  | 0, _, _, _ => .ok none
  | fuel + 1, s, p, caps =>
    if p < patt.length then
      let pc := patt.getD p 0
      if pc == 40 then
        -- '(': open a capture (position capture for "()")
        if MAXCAPTURES ≤ caps.length then .error .tooManyCaptures
        else if patt.getD (p + 1) 0 == 41 then
          domatch patt subj fuel s (p + 2) (caps ++ [⟨s, .position⟩])
        else
          domatch patt subj fuel s (p + 1) (caps ++ [⟨s, .unfinished⟩])
      else if pc == 41 then
        -- ')': close the most recent open capture
        match lastIdxWhere (fun c => c.stop == CapStop.unfinished) caps with
        | none => .error .invalidPatCapture
        | some j =>
          domatch patt subj fuel s (p + 1)
            (caps.set j ⟨(caps.getD j ⟨0, .unfinished⟩).st, .closed s⟩)
      else if pc == 36 && p + 1 == patt.length then
        -- '$' as the last pattern byte
        if s == subj.length then .ok (some (s, caps)) else .ok none
      else if pc == 37 && patt.getD (p + 1) 0 == 98 then
        -- '%b'
        match matchbalance patt subj s (p + 2) with
        | .error e => .error e
        | .ok none => .ok none
        | .ok (some s2) => domatch patt subj fuel s2 (p + 4) caps
      else if pc == 37 && patt.getD (p + 1) 0 == 102 then
        -- '%f'
        if patt.getD (p + 2) 0 == 91 then
          match classEnd patt (p + 2) with
          | .error e => .error e
          | .ok ep =>
            let prev := if s == 0 then 0 else subj.getD (s - 1) 0
            let cur := subj.getD s 0
            if !matchBracketClass patt prev (p + 2) (ep - 1) &&
                matchBracketClass patt cur (p + 2) (ep - 1) then
              domatch patt subj fuel s ep caps
            else .ok none
        else .error .missingLBracketF
      else if pc == 37 && isdigitB (patt.getD (p + 1) 0) then
        -- back-reference
        match matchCapture subj caps s (patt.getD (p + 1) 0) with
        | .error e => .error e
        | .ok none => .ok none
        | .ok (some s2) => domatch patt subj fuel s2 (p + 2) caps
      else
        -- default: a single-byte matcher, possibly quantified
        match classEnd patt p with
        | .error e => .error e
        | .ok ep =>
          let m := singlematch patt subj s p ep
          let qc := patt.getD ep 0
          if qc == 63 then
            if m then
              match domatch patt subj fuel (s + 1) (ep + 1) caps with
              | .error e => .error e
              | .ok (some r) => .ok (some r)
              | .ok none => domatch patt subj fuel s (ep + 1) caps
            else domatch patt subj fuel s (ep + 1) caps
          else if qc == 43 then
            if m then
              tryBack (fun s2 => domatch patt subj fuel s2 (ep + 1) caps) (s + 1)
                (runLen patt subj p ep (subj.length + 1) (s + 1))
            else .ok none
          else if qc == 42 then
            tryBack (fun s2 => domatch patt subj fuel s2 (ep + 1) caps) s
              (runLen patt subj p ep (subj.length + 1) s)
          else if qc == 45 then
            minLoop patt subj p ep (fun s2 => domatch patt subj fuel s2 (ep + 1) caps)
              (subj.length + 1) s
          else
            if m then domatch patt subj fuel (s + 1) ep caps
            else .ok none
    else .ok (some (s, caps))

/-- Emit one capture slot as a C `LuaMatch`: closed captures as
`(start, end)`, position captures as `(pos, -1)` (the spec's
`POSITION_MARKER` sentinel); an unfinished capture is the §7 "unfinished
capture" error. -/
def pushCapture (cap : Capture) : M (Int × Int) :=
  match cap.stop with
  | .unfinished => .error .unfinishedCap
  | .position => .ok ((cap.st : Int), -1)
  | .closed e => .ok ((cap.st : Int), (e : Int))

/-- Modelled from the spec: the top-level search loop, trying match starts
`s1 = 0, 1, …, subj.length` (only `0` when anchored).  Fuel
`subj.length + 1` is sufficient. -/
def matchLoop (patt subj : List Nat) (p0 : Nat) (anchor : Bool) :
    Nat → Nat → M (Option (Nat × Nat × List Capture))
  | 0, _ => .ok none
  | fuel + 1, s1 =>
    match domatch patt subj (patt.length + 1) s1 p0 [] with
    | .error e => .error e
    | .ok (some (e, caps)) => .ok (some (s1, e, caps))
    | .ok none =>
      if s1 < subj.length && !anchor then matchLoop patt subj p0 anchor fuel (s1 + 1)
      else .ok none

/-- Modelled from the spec: the C entry point `str_match` (not among the
given sources; linked via FFI in `src/lib.rs`).  On success the emitted list
has the whole-match span first, followed by one `LuaMatch` per user capture;
the returned count is the list's length (`n_match` in the Rust handle). -/
def str_match (patt subj : List Nat) : M (Option (List (Int × Int))) :=
  let anchor := patt.getD 0 0 == 94
  let p0 := if anchor then 1 else 0
  match matchLoop patt subj p0 anchor (subj.length + 1) 0 with
  | .error e => .error e
  | .ok none => .ok none
  | .ok (some (st, en, caps)) =>
    match caps.mapM pushCapture with
    | .error e => .error e
    | .ok user => .ok (some (((st : Int), (en : Int)) :: user))

/-! ## The pattern handle (`LuaPattern` in `src/lib.rs`)

The Rust handle owns the pattern bytes, a 32-slot `Vec<LuaMatch>` created
uninitialized (idealized here as zeros), and the last match count. -/

/-- The state of a `LuaPattern` handle. -/
structure LuaPatternH where
  patt : List Nat
  matchesBuf : List (Int × Int)
  n_match : Nat
  deriving DecidableEq, Repr

/-- `LuaPattern::from_bytes`. -/
def from_bytes (patt : List Nat) : LuaPatternH :=
  ⟨patt, List.replicate MAXCAPTURES ((0 : Int), (0 : Int)), 0⟩

/-- `LuaPattern::matches_bytes`: run the engine, overwrite the first
`n_match` slots of the buffer and store the count; an engine error is the
panic of the Rust code, modelled as the error of `M`.  Returns the updated
handle and `n_match > 0`. -/
def matches_bytes (h : LuaPatternH) (s : List Nat) : M (LuaPatternH × Bool) :=
  match str_match h.patt s with
  | .error e => .error e
  | .ok none => .ok ({ h with n_match := 0 }, false)
  | .ok (some spans) =>
    .ok (⟨h.patt, spans ++ h.matchesBuf.drop spans.length, spans.length⟩, true)

/-- `LuaPattern::capture`: the `i`-th stored span as a `usize` range. -/
def capture (h : LuaPatternH) (i : Nat) : Nat × Nat :=
  (usizeOfInt (h.matchesBuf.getD i (0, 0)).1, usizeOfInt (h.matchesBuf.getD i (0, 0)).2)

/-- `LuaPattern::first_capture`. -/
def first_capture (h : LuaPatternH) : Nat × Nat :=
  capture h (if h.n_match > 1 then 1 else 0)

/-- Modelled from the spec: the validating constructor (`new_try` /
`from_bytes_try`, used by `examples/errors.rs` but not among the given
sources): "validate by running the engine against an empty subject; if the
engine reports a pattern error, return it". -/
def try_new (patt : List Nat) : M Unit :=
  match str_match patt [] with
  | .error e => .error e
  | .ok _ => .ok ()

/-! ## Global iteration (`GMatch` / `GMatchBytes` in `src/lib.rs`) -/

/-- `GMatch::next`: run `matches` on the remaining text; on failure the
iterator is exhausted; on success yield the slice of `first_capture()` and
drop the remaining text to `range().end`. -/
def gmatch_next (h : LuaPatternH) (text : List Nat) :
    M (Option (List Nat × LuaPatternH × List Nat)) :=
  match matches_bytes h text with
  | .error e => .error e
  | .ok (_, false) => .ok none
  | .ok (h', true) =>
    let fc := first_capture h'
    .ok (some (sliceLE text fc.1 fc.2, h', text.drop (capture h' 0).2))

/-- `GMatchBytes::next` (textually the byte twin of `GMatch::next`). -/
def gmatch_bytes_next (h : LuaPatternH) (bytes : List Nat) :
    M (Option (List Nat × LuaPatternH × List Nat)) :=
  match matches_bytes h bytes with
  | .error e => .error e
  | .ok (_, false) => .ok none
  | .ok (h', true) =>
    let fc := first_capture h'
    .ok (some (sliceLE bytes fc.1 fc.2, h', bytes.drop (capture h' 0).2))

/-- The list of the first (up to) `fuel` items yielded by the `gmatch`
iterator.  In the source the iterator may be driven forever; `fuel` is the
number of `next()` calls observed. -/
def gmatchIter : LuaPatternH → List Nat → Nat → M (List (List Nat))
  | _, _, 0 => .ok []
  | h, text, fuel + 1 =>
    match gmatch_next h text with
    | .error e => .error e
    | .ok none => .ok []
    | .ok (some (item, h', rest)) =>
      match gmatchIter h' rest fuel with
      | .error e => .error e
      | .ok items => .ok (item :: items)

/-- The list of the first (up to) `fuel` items yielded by the
`gmatch_bytes` iterator. -/
def gmatchBytesIter : LuaPatternH → List Nat → Nat → M (List (List Nat))
  | _, _, 0 => .ok []
  | h, bytes, fuel + 1 =>
    match gmatch_bytes_next h bytes with
    | .error e => .error e
    | .ok none => .ok []
    | .ok (some (item, h', rest)) =>
      match gmatchBytesIter h' rest fuel with
      | .error e => .error e
      | .ok items => .ok (item :: items)

/-! ## Captures views (`Captures` / `ByteCaptures` in `src/lib.rs`) -/

/-- `Captures`: a borrowed view of the handle's spans over a text. -/
structure Captures where
  spans : List (Int × Int)
  text : List Nat

/-- `Captures::get`. -/
def Captures.get (cc : Captures) (i : Nat) : List Nat :=
  sliceLE cc.text (usizeOfInt (cc.spans.getD i (0, 0)).1) (usizeOfInt (cc.spans.getD i (0, 0)).2)

/-- `ByteCaptures`: the byte twin of `Captures`. -/
structure ByteCaptures where
  spans : List (Int × Int)
  bytes : List Nat

/-- `ByteCaptures::get`. -/
def ByteCaptures.get (cc : ByteCaptures) (i : Nat) : List Nat :=
  sliceLE cc.bytes (usizeOfInt (cc.spans.getD i (0, 0)).1) (usizeOfInt (cc.spans.getD i (0, 0)).2)

/-! ## Global substitution (`gsub_with`, `gsub`, `gsub_bytes_with`)

The source loops `while self.matches(slice)`, appending the region before
the match, a replacement, and finally the unmatched tail.  The loop is
modelled with fuel (`text.length + 1`); a `none` result marks the runs on
which the source itself would never terminate (a zero-width match repeated
forever), which consume no input between iterations. -/

/-- Loop body shared shape: `gsub_with`'s loop. -/
def gsubWithAux (patt : List Nat) (lookup : Captures → List Nat) :
    Nat → List Nat → M (Option (List Nat))
  | 0, _ => .ok none
  | fuel + 1, slice =>
    match str_match patt slice with
    | .error e => .error e
    | .ok none => .ok (some slice)
    | .ok (some spans) =>
      let st := usizeOfInt (spans.getD 0 (0, 0)).1
      let en := usizeOfInt (spans.getD 0 (0, 0)).2
      let repl := lookup ⟨spans, slice⟩
      match gsubWithAux patt lookup fuel (slice.drop en) with
      | .error e => .error e
      | .ok none => .ok none
      | .ok (some rest) => .ok (some (slice.take st ++ repl ++ rest))

/-- `LuaPattern::gsub_with`. -/
def gsub_with (patt text : List Nat) (lookup : Captures → List Nat) : M (Option (List Nat)) :=
  gsubWithAux patt lookup (text.length + 1) text

/-- `ByteCaptures` version: `gsub_bytes_with`'s loop. -/
def gsubBytesAux (patt : List Nat) (lookup : ByteCaptures → List Nat) :
    Nat → List Nat → M (Option (List Nat))
  | 0, _ => .ok none
  | fuel + 1, slice =>
    match str_match patt slice with
    | .error e => .error e
    | .ok none => .ok (some slice)
    | .ok (some spans) =>
      let st := usizeOfInt (spans.getD 0 (0, 0)).1
      let en := usizeOfInt (spans.getD 0 (0, 0)).2
      let repl := lookup ⟨spans, slice⟩
      match gsubBytesAux patt lookup fuel (slice.drop en) with
      | .error e => .error e
      | .ok none => .ok none
      | .ok (some rest) => .ok (some (slice.take st ++ repl ++ rest))

/-- `LuaPattern::gsub_bytes_with`. -/
def gsub_bytes_with (patt bytes : List Nat) (lookup : ByteCaptures → List Nat) :
    M (Option (List Nat)) :=
  gsubBytesAux patt lookup (bytes.length + 1) bytes

/-- The replacement-template alphabet (`enum Subst` in `src/lib.rs`). -/
inductive Subst where
  | Text (s : List Nat)
  | Capture (i : Nat)
  deriving DecidableEq, Repr

/-- The pattern `"%%([%%%d])"` used by `generate_gsub_patterns`. -/
def gsubPat : List Nat := strBytes "%%([%%%d])"

/-- `generate_gsub_patterns`'s loop, with fuel (each iteration consumes at
least the two matched bytes). -/
def genGsubAux : Nat → List Nat → M (Option (List Subst))
  | 0, _ => .ok none
  | fuel + 1, slice =>
    match str_match gsubPat slice with
    | .error e => .error e
    | .ok none => .ok (some [Subst.Text slice])
    | .ok (some spans) =>
      let st := usizeOfInt (spans.getD 0 (0, 0)).1
      let en := usizeOfInt (spans.getD 0 (0, 0)).2
      let cap := sliceLE slice (usizeOfInt (spans.getD 1 (0, 0)).1)
        (usizeOfInt (spans.getD 1 (0, 0)).2)
      let before := slice.take st
      let lead := if before ≠ [] then [Subst.Text before] else []
      let elem := if cap = [37] then Subst.Text [37] else Subst.Capture ((cap.getD 0 0) - 48)
      match genGsubAux fuel (slice.drop en) with
      | .error e => .error e
      | .ok none => .ok none
      | .ok (some rest) => .ok (some (lead ++ elem :: rest))

/-- `generate_gsub_patterns`. -/
def generate_gsub_patterns (repl : List Nat) : M (Option (List Subst)) :=
  genGsubAux (repl.length + 1) repl

/-- Expansion of a parsed template against a `Captures` view (the inner
`for r in &repl` loop of `gsub`). -/
def expandSubsts (cc : Captures) (l : List Subst) : List Nat :=
  (l.map fun r => match r with | .Text t => t | .Capture i => cc.get i).flatten

/-- `gsub`'s loop over the subject. -/
def gsubAux (patt : List Nat) (parsed : List Subst) : Nat → List Nat → M (Option (List Nat))
  | 0, _ => .ok none
  | fuel + 1, slice =>
    match str_match patt slice with
    | .error e => .error e
    | .ok none => .ok (some slice)
    | .ok (some spans) =>
      let st := usizeOfInt (spans.getD 0 (0, 0)).1
      let en := usizeOfInt (spans.getD 0 (0, 0)).2
      let repl := expandSubsts ⟨spans, slice⟩ parsed
      match gsubAux patt parsed fuel (slice.drop en) with
      | .error e => .error e
      | .ok none => .ok none
      | .ok (some rest) => .ok (some (slice.take st ++ repl ++ rest))

/-- `LuaPattern::gsub`. -/
def gsub (patt text repl : List Nat) : M (Option (List Nat)) :=
  match generate_gsub_patterns repl with
  | .error e => .error e
  | .ok none => .ok none
  | .ok (some parsed) => gsubAux patt parsed (text.length + 1) text

/-! ## The pattern builder (`LuaPatternBuilder` in `src/lib.rs`) -/

/-- The set pattern `"[%-%.%+%[%]%(%)%$%^%%%?%*]"` used by
`LuaPatternBuilder::bytes` to find magic bytes. -/
def magicPat : List Nat := strBytes "[%-%.%+%[%]%(%)%$%^%%%?%*]"

/-- The replacement closure of `LuaPatternBuilder::bytes`: a `%` followed by
the matched magic byte. -/
def escLookup (cc : ByteCaptures) : List Nat := [37, (cc.get 0).getD 0 0]

/-- The escaping pass of `LuaPatternBuilder::bytes` (its
`gsub_bytes_with` call). -/
def escapeBytes (b : List Nat) : M (Option (List Nat)) :=
  gsub_bytes_with magicPat b escLookup

/-- The builder's state. -/
structure LuaPatternBuilder where
  bytes : List Nat
  deriving DecidableEq, Repr

/-- `LuaPatternBuilder::new`. -/
def builderNew : LuaPatternBuilder := ⟨[]⟩

/-- `LuaPatternBuilder::text`. -/
def builderText (b : LuaPatternBuilder) (s : List Nat) : LuaPatternBuilder :=
  ⟨b.bytes ++ s⟩

/-- Lines of a byte string, splitting at `\n` (Rust `str::lines`; a
trailing `\r` is stripped from each line). -/
def linesOf (s : List Nat) : List (List Nat) :=
  ((s.splitOn 10).map fun l => if l.getLast? = some 13 then l.dropLast else l)

/-- First whitespace-delimited token of a line
(`line.split_whitespace().next()`), or `[]`. -/
def firstToken (l : List Nat) : List Nat :=
  ((l.dropWhile fun c => isspaceB c).takeWhile fun c => !isspaceB c)

/-- `LuaPatternBuilder::text_lines`. -/
def builderTextLines (b : LuaPatternBuilder) (s : List Nat) : LuaPatternBuilder :=
  builderText b ((linesOf s).map firstToken).flatten

/-- `LuaPatternBuilder::bytes`: append the escaped bytes. -/
def builderBytes (b : LuaPatternBuilder) (s : List Nat) : M (Option LuaPatternBuilder) :=
  match escapeBytes s with
  | .error e => .error e
  | .ok none => .ok none
  | .ok (some bb) => .ok (some ⟨b.bytes ++ bb⟩)

/-- `LuaPatternBuilder::build`: hand out the accumulated bytes and leave the
builder empty (`mem::swap` with a fresh vector). -/
def build (b : LuaPatternBuilder) : List Nat × LuaPatternBuilder :=
  (b.bytes, ⟨[]⟩)

/-! ## Hex helpers (`hex_to_bytes` / `bytes_to_hex`) -/

/-- The pattern `"%x%x"` used by `hex_to_bytes`. -/
def xpat : List Nat := strBytes "%x%x"

/-- Value of one hex-digit byte (`0-9`, `A-F`, `a-f`). -/
def hexDigitVal (c : Nat) : Nat :=
  if isdigitB c then c - 48 else if 97 ≤ c then c - 87 else c - 55

/-- `u8::from_str_radix(pair, 16)` on a two-hex-digit slice. -/
def hexPairVal (l : List Nat) : Nat :=
  hexDigitVal (l.getD 0 0) * 16 + hexDigitVal (l.getD 1 0)

/-- `LuaPatternBuilder::hex_to_bytes`: one byte per `gmatch`-found pair of
adjacent hex digits. -/
def hex_to_bytes (s : List Nat) : M (List Nat) :=
  match gmatchIter (from_bytes xpat) s (s.length + 1) with
  | .error e => .error e
  | .ok items => .ok (items.map hexPairVal)

/-- `LuaPatternBuilder::bytes_as_hex`. -/
def builderBytesAsHex (b : LuaPatternBuilder) (s : List Nat) : M (Option LuaPatternBuilder) :=
  match hex_to_bytes s with
  | .error e => .error e
  | .ok bs => builderBytes b bs

/-- Uppercase hex digit of a value `< 16` (`"{:02X}"`). -/
def hexUp (n : Nat) : Nat := if n < 10 then 48 + n else 55 + n

/-- `"{:02X}"` of one byte. -/
def byteToHex (x : Nat) : List Nat := [hexUp (x / 16), hexUp (x % 16)]

/-- `LuaPatternBuilder::bytes_to_hex`. -/
def bytes_to_hex (b : List Nat) : List Nat := (b.map byteToHex).flatten

/-! ## Decidable equality of results -/

instance {ε α : Type} [DecidableEq ε] [DecidableEq α] : DecidableEq (Except ε α) := fun a b =>
  match a, b with
  | .error e, .error f => if h : e = f then .isTrue (by rw [h]) else .isFalse (by simp [h])
  | .ok x, .ok y => if h : x = y then .isTrue (by rw [h]) else .isFalse (by simp [h])
  | .error _, .ok _ => .isFalse (by simp)
  | .ok _, .error _ => .isFalse (by simp)

/-! ## A static well-formedness checker for patterns

`str_check` formalizes "structurally malformed per the §7 error table": it
walks the pattern once — the same unit-by-unit walk the engine performs,
but without a subject — tracking only the shape of the capture stack, and
reports the first §7 error. -/

/-- The shape of a capture slot, as the static checker tracks it. -/
inductive CapSt where
  | unfinished
  | position
  | closed
  deriving DecidableEq, Repr

/-- Forget the offsets of a capture slot. -/
def statusOf (c : Capture) : CapSt :=
  match c.stop with
  | .unfinished => .unfinished
  | .position => .position
  | .closed _ => .closed

/-- Walk the pattern from `p` with capture-stack shape `σ`, performing
exactly the §7 checks the engine performs on each unit it enters, and
return the shape at the end of the pattern.  Fuel `patt.length + 1` is
sufficient (the cursor strictly increases). -/
def checkFrom (patt : List Nat) : Nat → Nat → List CapSt → M (List CapSt)
  | 0, _, σ => .ok σ
  | fuel + 1, p, σ =>
    if p < patt.length then
      let pc := patt.getD p 0
      if pc == 40 then
        if MAXCAPTURES ≤ σ.length then .error .tooManyCaptures
        else if patt.getD (p + 1) 0 == 41 then checkFrom patt fuel (p + 2) (σ ++ [.position])
        else checkFrom patt fuel (p + 1) (σ ++ [.unfinished])
      else if pc == 41 then
        match lastIdxWhere (fun c => c == CapSt.unfinished) σ with
        | none => .error .invalidPatCapture
        | some j => checkFrom patt fuel (p + 1) (σ.set j .closed)
      else if pc == 36 && p + 1 == patt.length then .ok σ
      else if pc == 37 && patt.getD (p + 1) 0 == 98 then
        if p + 3 < patt.length then checkFrom patt fuel (p + 4) σ
        else .error .missingArgsB
      else if pc == 37 && patt.getD (p + 1) 0 == 102 then
        if patt.getD (p + 2) 0 == 91 then
          match classEnd patt (p + 2) with
          | .error e => .error e
          | .ok ep => checkFrom patt fuel ep σ
        else .error .missingLBracketF
      else if pc == 37 && isdigitB (patt.getD (p + 1) 0) then
        let d := patt.getD (p + 1) 0
        if 49 ≤ d && d - 49 < σ.length then
          if σ.getD (d - 49) .closed == CapSt.unfinished then .error (.invalidCapIndex (d - 48))
          else checkFrom patt fuel (p + 2) σ
        else .error (.invalidCapIndex (d - 48))
      else
        match classEnd patt p with
        | .error e => .error e
        | .ok ep =>
          let qc := patt.getD ep 0
          if qc == 63 || qc == 43 || qc == 42 || qc == 45 then checkFrom patt fuel (ep + 1) σ
          else checkFrom patt fuel ep σ
    else .ok σ

/-- Structural §7 validation of a whole pattern: walk it (skipping a
leading `^` anchor exactly as the engine does) and reject a capture left
open at the end ("unfinished capture"). -/
def str_check (patt : List Nat) : M Unit :=
  let anchor := patt.getD 0 0 == 94
  match checkFrom patt (patt.length + 1) (if anchor then 1 else 0) [] with
  | .error e => .error e
  | .ok σ => if σ.any (fun c => c == CapSt.unfinished) then .error .unfinishedCap else .ok ()

/-- Agreement between one static-checker result and one engine result from
the same pattern position and capture shape: on an engine error the checker
reports the same error; on an engine success the checker succeeds with the
shape of the final capture stack; an engine failure promises nothing. -/
def Agrees (c : M (List CapSt)) (d : M (Option (Nat × List Capture))) : Prop :=
  match d with
  | .ok none => True
  | .error e => c = .error e
  | .ok (some (_, caps)) => c = .ok (caps.map statusOf)

/-- Default capture used with `List.getD`. -/
def capDef : Capture := ⟨0, CapStop.unfinished⟩

/-- How one engine call from subject offset `s` (ending at `s'`) may change
the capture stack: existing slots keep their start and may only go from
unfinished to closed at an offset in `[s, s']`; new slots open at an offset
in `[s, s']` and, if closed, close at an offset between their start and
`s'`. -/
def Evolve (s s' : Nat) (caps caps' : List Capture) : Prop :=
  caps.length ≤ caps'.length ∧
  (∀ i, i < caps.length →
    (caps'.getD i capDef).st = (caps.getD i capDef).st ∧
    (caps'.getD i capDef = caps.getD i capDef ∨
      ((caps.getD i capDef).stop = CapStop.unfinished ∧
        ∃ e, (caps'.getD i capDef).stop = CapStop.closed e ∧ s ≤ e ∧ e ≤ s'))) ∧
  (∀ i, caps.length ≤ i → i < caps'.length →
    s ≤ (caps'.getD i capDef).st ∧ (caps'.getD i capDef).st ≤ s' ∧
    (∀ e, (caps'.getD i capDef).stop = CapStop.closed e →
      (caps'.getD i capDef).st ≤ e ∧ e ≤ s'))

/-! ## Reference descriptions used by individual claims

Each of the following definitions restates, in direct form, what a claim
says some library function computes; the corresponding theorem proves the
library function equal to it. -/

/-- The magic set of the pattern builder as the spec lists it:
`^ $ ( ) % . [ ] * + - ?` (written in the order the source's set pattern
lists them). -/
def isMagicB (c : Nat) : Bool :=
  (45 == c) || (46 == c) || (43 == c) || (91 == c) || (93 == c) || (40 == c) ||
  (41 == c) || (36 == c) || (94 == c) || (37 == c) || (63 == c) || (42 == c)

/-- A byte string with every magic byte `%`-escaped and all other bytes
unchanged — what the claim says the builder's escaping helper produces. -/
def litPat (b : List Nat) : List Nat :=
  (b.map fun c => if isMagicB c then [37, c] else [c]).flatten

/-- Do the bytes `B` occur verbatim in `subj` starting at offset `s`? -/
def litAt (subj : List Nat) : List Nat → Nat → Bool
  | [], _ => true
  | b :: B, s => (decide (s < subj.length) && (b == subj.getD s 0)) && litAt subj B (s + 1)

/-- Is there a magic byte at offset `j`? -/
def magicAt (subj : List Nat) (j : Nat) : Bool :=
  decide (j < subj.length) && isMagicB (subj.getD j 0)

/-- Is there a pair of adjacent hex digits at offset `j`? -/
def hexPairAt (subj : List Nat) (j : Nat) : Bool :=
  decide (j + 1 < subj.length) && isxdigitB (subj.getD j 0) && isxdigitB (subj.getD (j + 1) 0)

/-- Leftmost non-overlapping pairs of adjacent hex digits, as byte pairs. -/
def hexPairs : List Nat → List (List Nat)
  | x :: y :: r =>
    if isxdigitB x && isxdigitB y then [x, y] :: hexPairs r else hexPairs (y :: r)
  | _ => []

/-- What the claim says `hex_to_bytes` computes: one byte per leftmost
non-overlapping pair of adjacent hex digits, other characters contributing
nothing. -/
def specHexScan : List Nat → List Nat
  | x :: y :: r =>
    if isxdigitB x && isxdigitB y then (hexDigitVal x * 16 + hexDigitVal y) :: specHexScan r
    else specHexScan (y :: r)
  | _ => []

/-- Expansion of a parsed replacement template against an abstract
capture-content map `γ`. -/
def expandWith (γ : Nat → List Nat) (l : List Subst) : List Nat :=
  (l.map fun r => match r with | .Text t => t | .Capture i => γ i).flatten

/-- What the claim says the template grammar means: `%%` is a literal `%`,
`%<digit>` is the content of that capture, everything else is copied. -/
def specExpandT (γ : Nat → List Nat) : List Nat → List Nat
  | [] => []
  | 37 :: c :: r =>
    if c == 37 then 37 :: specExpandT γ r
    else if isdigitB c then γ (c - 48) ++ specExpandT γ r
    else 37 :: specExpandT γ (c :: r)
  | c :: r => c :: specExpandT γ r

/-- Is there a template escape (`%` followed by `%` or a digit) at `j`? -/
def escAt (slice : List Nat) (j : Nat) : Bool :=
  decide (j + 1 < slice.length) && (slice.getD j 0 == 37) &&
    (slice.getD (j + 1) 0 == 37 || isdigitB (slice.getD (j + 1) 0))

/-- A pattern whose match attempt at offset `j` (from pattern offset `p0`
with empty capture stack and the engine's standard fuel) deterministically
either fails or succeeds at `endf j` with captures `capsf j`, as decided by
`pred j`. -/
def SimpleChar (patt subj : List Nat) (p0 : Nat) (pred : Nat → Bool)
    (endf : Nat → Nat) (capsf : Nat → List Capture) : Prop :=
  ∀ j, domatch patt subj (patt.length + 1) j p0 [] =
    .ok (if pred j then some (endf j, capsf j) else none)

/-! # Lemmas -/

theorem domatch_pattEnd (patt subj : List Nat) (fuel s p : Nat) (caps : List Capture)
    (h : patt.length ≤ p) :
    domatch patt subj (fuel + 1) s p caps = .ok (some (s, caps)) := by
  rw [domatch.eq_2]
  simp [Nat.not_lt.mpr h]

theorem xpat_eq : xpat = [37, 120, 37, 120] := by decide

theorem domatch_xpat2 (subj : List Nat) (s : Nat) (caps : List Capture) :
    domatch xpat subj 4 s 2 caps =
      .ok (if s < subj.length ∧ isxdigitB (subj.getD s 0) then some (s + 1, caps) else none) := by
  rw [show (4 : Nat) = Nat.succ 3 from rfl, domatch.eq_2]
  simp only [xpat_eq, List.length_cons, List.length_nil, List.getD_cons_zero, List.getD_cons_succ]
  norm_num [classEnd, singlematch, classMatch, tolowerB, isupperB, isalphaB, isdigitB]
  rw [show (3 : Nat) = 2 + 1 from rfl, domatch_pattEnd _ _ _ _ _ _ (by norm_num)]
  split_ifs <;> rfl

theorem domatch_xpat0 (subj : List Nat) (s : Nat) (caps : List Capture) :
    domatch xpat subj 5 s 0 caps =
      .ok (if s < subj.length ∧ isxdigitB (subj.getD s 0) then
        (if s + 1 < subj.length ∧ isxdigitB (subj.getD (s + 1) 0) then some (s + 2, caps)
         else none)
        else none) := by
  rw [show (5 : Nat) = Nat.succ 4 from rfl, domatch.eq_2]
  simp only [xpat_eq, List.length_cons, List.length_nil, List.getD_cons_zero, List.getD_cons_succ]
  norm_num [classEnd, singlematch, classMatch, tolowerB, isupperB, isalphaB, isdigitB]
  rw [show [37, 120, 37, 120] = xpat from xpat_eq.symm, domatch_xpat2]
  simp only [← List.getD_eq_getElem?_getD]
  split_ifs <;> rfl

theorem nested_if_hexPairAt (subj : List Nat) (s : Nat) {α : Type} (x : α) :
    (if s < subj.length ∧ isxdigitB (subj.getD s 0) then
      (if s + 1 < subj.length ∧ isxdigitB (subj.getD (s + 1) 0) then some x else none)
      else none) =
    (if hexPairAt subj s then some x else none) := by
  have hsn : s + 1 < subj.length → s < subj.length := by omega
  simp only [hexPairAt, Bool.and_eq_true, decide_eq_true_eq]
  split_ifs <;> tauto

theorem xpat_simple (subj : List Nat) :
    SimpleChar xpat subj 0 (hexPairAt subj) (fun j => j + 2) (fun _ => []) := by
  intro j
  rw [show xpat.length + 1 = 5 from by rw [xpat_eq]; rfl, domatch_xpat0,
    nested_if_hexPairAt]

theorem matchLoop_simple_found (patt subj : List Nat) (p0 : Nat) (pred : Nat → Bool)
    (endf : Nat → Nat) (capsf : Nat → List Capture)
    (hs : SimpleChar patt subj p0 pred endf capsf) :
    ∀ fuel s1 k, s1 ≤ k → k ≤ subj.length → pred k = true →
      (∀ j, s1 ≤ j → j < k → pred j = false) → k - s1 < fuel →
      matchLoop patt subj p0 false fuel s1 = .ok (some (k, endf k, capsf k)) := by
  intro fuel
  induction fuel with
  | zero => intro s1 k h1 h2 h3 h4 h5; omega
  | succ fuel ih =>
    intro s1 k hs1k hkn hk hmin _
    rw [matchLoop, hs s1]
    rcases Nat.eq_or_lt_of_le hs1k with heq | hlt
    · subst heq
      simp [hk]
    · have hps1 : pred s1 = false := hmin s1 le_rfl hlt
      have hlen : s1 < subj.length := lt_of_lt_of_le hlt hkn
      simp only [hps1]
      simp only [Bool.false_eq_true, if_false, hlen, decide_true_eq_true]
      simp [hlen]
      exact ih (s1 + 1) k hlt hkn hk (fun j h1 h2 => hmin j (by omega) h2) (by omega)

theorem matchLoop_simple_none (patt subj : List Nat) (p0 : Nat) (pred : Nat → Bool)
    (endf : Nat → Nat) (capsf : Nat → List Capture)
    (hs : SimpleChar patt subj p0 pred endf capsf) :
    ∀ fuel s1, s1 ≤ subj.length → (∀ j, s1 ≤ j → j ≤ subj.length → pred j = false) →
      subj.length + 1 ≤ fuel + s1 →
      matchLoop patt subj p0 false fuel s1 = .ok none := by
  intro fuel
  induction fuel with
  | zero => intro s1 _ _ _; rfl
  | succ fuel ih =>
    intro s1 hs1 hnone hle
    rw [matchLoop, hs s1]
    rw [hnone s1 le_rfl hs1]
    by_cases hlt : s1 < subj.length
    · simp [hlt]
      exact ih (s1 + 1) hlt (fun j h1 h2 => hnone j (by omega) h2) (by omega)
    · simp [hlt]

theorem usizeOfInt_ofNat (k : Nat) : usizeOfInt (k : Int) = k := by
  simp [usizeOfInt]

theorem usizeOfInt_cast_add_two (k : Nat) : usizeOfInt ((k : Int) + 2) = k + 2 := by
  rw [usizeOfInt, if_neg (by omega)]
  omega

theorem str_match_simple_found (patt subj : List Nat) (pred : Nat → Bool)
    (endf : Nat → Nat) (capsf : Nat → List Capture) (user : List (Int × Int)) (k : Nat)
    (hanchor : (patt.getD 0 0 == 94) = false)
    (hs : SimpleChar patt subj 0 pred endf capsf)
    (hkn : k ≤ subj.length) (hk : pred k = true)
    (hmin : ∀ j, j < k → pred j = false)
    (hcaps : (capsf k).mapM pushCapture = .ok user) :
    str_match patt subj = .ok (some (((k : Int), (endf k : Int)) :: user)) := by
  rw [str_match]
  simp only [hanchor]
  rw [if_neg (by simp), matchLoop_simple_found patt subj 0 pred endf capsf hs
    (subj.length + 1) 0 k (Nat.zero_le k) hkn hk (fun j _ hj => hmin j hj) (by omega)]
  dsimp only
  rw [hcaps]

theorem str_match_simple_none (patt subj : List Nat) (pred : Nat → Bool)
    (endf : Nat → Nat) (capsf : Nat → List Capture)
    (hanchor : (patt.getD 0 0 == 94) = false)
    (hs : SimpleChar patt subj 0 pred endf capsf)
    (hnone : ∀ j, j ≤ subj.length → pred j = false) :
    str_match patt subj = .ok none := by
  rw [str_match]
  simp only [hanchor]
  rw [if_neg (by simp), matchLoop_simple_none patt subj 0 pred endf capsf hs
    (subj.length + 1) 0 (Nat.zero_le _) (fun j _ hj => hnone j hj) (by omega)]

theorem hexPairAt_lt (text : List Nat) (j : Nat) (h : hexPairAt text j = true) :
    j + 1 < text.length := by
  simp only [hexPairAt, Bool.and_eq_true, decide_eq_true_eq] at h
  exact h.1.1

theorem hexPairAt_cons (c : Nat) (rest : List Nat) (j : Nat) :
    hexPairAt (c :: rest) (j + 1) = hexPairAt rest j := by
  simp [hexPairAt]

theorem hexPairAt_zero_false (x y : Nat) (r : List Nat)
    (h0 : hexPairAt (x :: y :: r) 0 = false) : (isxdigitB x && isxdigitB y) = false := by
  by_cases hx : isxdigitB x <;> by_cases hy : isxdigitB y <;> simp [hx, hy]
  simp [hexPairAt, hx, hy, List.length_cons] at h0

theorem hexPairs_eq_nil : ∀ (text : List Nat), (∀ j, hexPairAt text j = false) →
    hexPairs text = []
  | [], _ => rfl
  | [_], _ => rfl
  | x :: y :: r, h => by
    have hxy := hexPairAt_zero_false x y r (h 0)
    rw [hexPairs, if_neg (by simp [hxy])]
    exact hexPairs_eq_nil (y :: r) fun j => by rw [← hexPairAt_cons x (y :: r) j]; exact h (j + 1)

theorem hexPairs_least : ∀ (text : List Nat) (k : Nat), hexPairAt text k = true →
    (∀ j, j < k → hexPairAt text j = false) →
    hexPairs text = [text.getD k 0, text.getD (k + 1) 0] :: hexPairs (text.drop (k + 2))
  | [], k, hk, _ => by simp [hexPairAt] at hk
  | [x], k, hk, _ => by
    have := hexPairAt_lt _ _ hk
    simp at this
  | x :: y :: r, 0, hk, _ => by
    simp only [hexPairAt, List.getD_cons_zero, List.getD_cons_succ, Bool.and_eq_true,
      decide_eq_true_eq] at hk
    rw [hexPairs, if_pos (by simp [hk.1.2, hk.2])]
    simp
  | x :: y :: r, k + 1, hk, hmin => by
    have hxy := hexPairAt_zero_false x y r (hmin 0 (by omega))
    have hk' : hexPairAt (y :: r) k = true := by rw [← hexPairAt_cons]; exact hk
    have hmin' : ∀ j, j < k → hexPairAt (y :: r) j = false := fun j hj => by
      rw [← hexPairAt_cons]; exact hmin (j + 1) (by omega)
    rw [hexPairs, if_neg (by simp [hxy]), hexPairs_least (y :: r) k hk' hmin']
    simp

theorem sliceLE_two : ∀ (l : List Nat) (a : Nat), a + 1 < l.length →
    sliceLE l a (a + 2) = [l.getD a 0, l.getD (a + 1) 0]
  | [], _, h => by simp at h
  | [_], 0, h => by simp at h
  | x :: y :: _, 0, _ => by simp [sliceLE]
  | x :: r, a + 1, h => by
    have ih := sliceLE_two r a (by simp at h; omega)
    simpa [sliceLE, List.take_succ_cons, List.drop_succ_cons] using ih

theorem hexPairAt_ge (text : List Nat) (j : Nat) (h : text.length ≤ j + 1) :
    hexPairAt text j = false := by
  by_contra hb
  have := hexPairAt_lt text j (by revert hb; cases hexPairAt text j <;> simp)
  omega

theorem gmatch_next_xpat_found (h : LuaPatternH) (text : List Nat) (k : Nat)
    (hp : h.patt = xpat) (hk : hexPairAt text k = true)
    (hmin : ∀ j, j < k → hexPairAt text j = false) :
    gmatch_next h text = .ok (some (sliceLE text k (k + 2),
      ⟨h.patt, ((k : Int), ((k + 2 : Nat) : Int)) :: h.matchesBuf.drop 1, 1⟩,
      text.drop (k + 2))) := by
  have hsm : str_match h.patt text = .ok (some [((k : Int), ((k + 2 : Nat) : Int))]) := by
    rw [hp]
    exact str_match_simple_found xpat text (hexPairAt text) (fun j => j + 2) (fun _ => []) [] k
      (by decide) (xpat_simple text) (by have := hexPairAt_lt _ _ hk; omega) hk hmin rfl
  simp [gmatch_next, matches_bytes, hsm, first_capture, capture, usizeOfInt_ofNat,
    usizeOfInt_cast_add_two]

theorem gmatch_next_xpat_none (h : LuaPatternH) (text : List Nat)
    (hp : h.patt = xpat) (hnone : ∀ j, hexPairAt text j = false) :
    gmatch_next h text = .ok none := by
  have hsm : str_match h.patt text = .ok none := by
    rw [hp]
    exact str_match_simple_none xpat text (hexPairAt text) (fun j => j + 2) (fun _ => [])
      (by decide) (xpat_simple text) (fun j _ => hnone j)
  simp [gmatch_next, matches_bytes, hsm]

theorem gmatchIter_xpat : ∀ (fuel : Nat) (h : LuaPatternH) (text : List Nat),
    h.patt = xpat → text.length < fuel → gmatchIter h text fuel = .ok (hexPairs text) := by
  intro fuel
  induction fuel with
  | zero => intro h text _ hlen; omega
  | succ fuel ih =>
    intro h text hp hlen
    by_cases hex : ∃ j, j ≤ text.length ∧ hexPairAt text j = true
    · have hex' : ∃ j, hexPairAt text j = true := ⟨hex.choose, hex.choose_spec.2⟩
      set k := Nat.find hex' with hkdef
      have hk : hexPairAt text k = true := Nat.find_spec hex'
      have hmin : ∀ j, j < k → hexPairAt text j = false := fun j hj => by
        have := Nat.find_min hex' hj
        revert this; cases hexPairAt text j <;> simp
      rw [gmatchIter, gmatch_next_xpat_found h text k hp hk hmin]
      have hlt := hexPairAt_lt text k hk
      dsimp only
      rw [ih ⟨h.patt, ((k : Int), ((k + 2 : Nat) : Int)) :: h.matchesBuf.drop 1, 1⟩
        (text.drop (k + 2)) hp (by simp [List.length_drop]; omega)]
      dsimp only
      rw [hexPairs_least text k hk hmin, sliceLE_two text k hlt]
    · push_neg at hex
      have hnone : ∀ j, hexPairAt text j = false := by
        intro j
        by_cases hj : j ≤ text.length
        · have := hex j hj
          revert this; cases hexPairAt text j <;> simp
        · exact hexPairAt_ge text j (by omega)
      rw [gmatchIter, gmatch_next_xpat_none h text hp hnone, hexPairs_eq_nil text hnone]

theorem specHexScan_eq_map : ∀ text : List Nat,
    specHexScan text = (hexPairs text).map hexPairVal
  | [] => rfl
  | [_] => rfl
  | x :: y :: r => by
    rw [specHexScan, hexPairs]
    split_ifs with hxy
    · rw [List.map_cons, specHexScan_eq_map r]
      rfl
    · exact specHexScan_eq_map (y :: r)

/-- The content of claim C10, shared: `hex_to_bytes` computes exactly the
leftmost-pairs hex scan. -/
theorem hex_to_bytes_eq_spec (s : List Nat) : hex_to_bytes s = .ok (specHexScan s) := by
  rw [hex_to_bytes, gmatchIter_xpat (s.length + 1) (from_bytes xpat) s rfl (by omega),
    specHexScan_eq_map]

theorem isxdigitB_hexUp (n : Nat) (h : n < 16) : isxdigitB (hexUp n) = true := by
  interval_cases n <;> decide

theorem hexDigitVal_hexUp (n : Nat) (h : n < 16) : hexDigitVal (hexUp n) = n := by
  interval_cases n <;> decide

theorem magicPat_eq : magicPat = [91, 37, 45, 37, 46, 37, 43, 37, 91, 37, 93, 37, 40, 37, 41,
    37, 36, 37, 94, 37, 37, 37, 63, 37, 42, 93] := by decide

theorem magic_bracket (c : Nat) :
    matchBracketClass [91, 37, 45, 37, 46, 37, 43, 37, 91, 37, 93, 37, 40, 37, 41,
      37, 36, 37, 94, 37, 37, 37, 63, 37, 42, 93] c 0 25 = isMagicB c := by
  rw [Bool.eq_iff_iff]
  simp [matchBracketClass, matchClassInSet, isMagicB, classMatch, tolowerB, isupperB, isalphaB]
  tauto

set_option maxHeartbeats 1000000 in
theorem domatch_magic0 (subj : List Nat) (s : Nat) (caps : List Capture) :
    domatch magicPat subj 27 s 0 caps =
      .ok (if s < subj.length ∧ isMagicB (subj.getD s 0) then some (s + 1, caps) else none) := by
  rw [show (27 : Nat) = Nat.succ 26 from rfl, domatch.eq_2]
  simp only [magicPat_eq, List.length_cons, List.length_nil, List.getD_cons_zero,
    List.getD_cons_succ]
  norm_num [classEnd, seekSetEnd, singlematch, classMatch, tolowerB, isupperB, isalphaB,
    isdigitB]
  rw [magic_bracket]
  rw [show (26 : Nat) = 25 + 1 from rfl, domatch_pattEnd _ _ _ _ _ _ (by norm_num)]
  simp only [← List.getD_eq_getElem?_getD]
  split_ifs <;> rfl

theorem magicPat_simple (subj : List Nat) :
    SimpleChar magicPat subj 0 (magicAt subj) (fun j => j + 1) (fun _ => []) := by
  intro j
  rw [show magicPat.length + 1 = 27 from by rw [magicPat_eq]; rfl, domatch_magic0]
  simp only [magicAt, Bool.and_eq_true, decide_eq_true_eq]

theorem magicAt_cons (c : Nat) (r : List Nat) (j : Nat) :
    magicAt (c :: r) (j + 1) = magicAt r j := by
  simp [magicAt]

theorem magicAt_zero (c : Nat) (r : List Nat) : magicAt (c :: r) 0 = isMagicB c := by
  simp [magicAt]

theorem litPat_no_magic : ∀ B : List Nat, (∀ j, magicAt B j = false) → litPat B = B
  | [], _ => rfl
  | x :: r, h => by
    have h0 := h 0
    rw [magicAt_zero] at h0
    rw [litPat]
    simp only [List.map_cons, List.flatten_cons, h0, if_neg Bool.false_ne_true]
    rw [show (r.map fun c => if isMagicB c then [37, c] else [c]).flatten = litPat r from rfl,
      litPat_no_magic r fun j => by rw [← magicAt_cons x r j]; exact h (j + 1)]
    rfl

theorem litPat_least : ∀ (B : List Nat) (k : Nat), magicAt B k = true →
    (∀ j, j < k → magicAt B j = false) →
    litPat B = B.take k ++ [37, B.getD k 0] ++ litPat (B.drop (k + 1))
  | [], k, hk, _ => by simp [magicAt] at hk
  | x :: r, 0, hk, _ => by
    rw [magicAt_zero] at hk
    rw [litPat]
    simp only [List.map_cons, List.flatten_cons, hk, if_pos]
    simp [litPat]
  | x :: r, k + 1, hk, hmin => by
    have h0 := hmin 0 (by omega)
    rw [magicAt_zero] at h0
    have hk' : magicAt r k = true := by rw [← magicAt_cons]; exact hk
    have hmin' : ∀ j, j < k → magicAt r j = false := fun j hj => by
      rw [← magicAt_cons]; exact hmin (j + 1) (by omega)
    rw [litPat]
    simp only [List.map_cons, List.flatten_cons, h0, if_neg Bool.false_ne_true]
    rw [show (r.map fun c => if isMagicB c then [37, c] else [c]).flatten = litPat r from rfl,
      litPat_least r k hk' hmin']
    simp

theorem sliceLE_one : ∀ (l : List Nat) (a : Nat), a < l.length →
    sliceLE l a (a + 1) = [l.getD a 0]
  | [], _, h => by simp at h
  | x :: _, 0, _ => by simp [sliceLE]
  | x :: r, a + 1, h => by
    have ih := sliceLE_one r a (by simp at h; omega)
    simpa [sliceLE, List.take_succ_cons, List.drop_succ_cons] using ih

theorem usizeOfInt_cast_add_one (k : Nat) : usizeOfInt ((k : Int) + 1) = k + 1 := by
  rw [usizeOfInt, if_neg (by omega)]
  omega

theorem magicAt_ge (B : List Nat) (j : Nat) (h : B.length ≤ j) : magicAt B j = false := by
  by_contra hb
  have : j < B.length := by
    have hb' : magicAt B j = true := by revert hb; cases magicAt B j <;> simp
    simp only [magicAt, Bool.and_eq_true, decide_eq_true_eq] at hb'
    exact hb'.1
  omega

theorem gsubBytesAux_magic : ∀ (fuel : Nat) (B : List Nat), B.length < fuel →
    gsubBytesAux magicPat escLookup fuel B = .ok (some (litPat B)) := by
  intro fuel
  induction fuel with
  | zero => intro B h; omega
  | succ fuel ih =>
    intro B hlen
    rw [gsubBytesAux]
    by_cases hex : ∃ j, magicAt B j = true
    · set k := Nat.find hex with hkdef
      have hk : magicAt B k = true := Nat.find_spec hex
      have hmin : ∀ j, j < k → magicAt B j = false := fun j hj => by
        have := Nat.find_min hex hj
        revert this; cases magicAt B j <;> simp
      have hklen : k < B.length := by
        have := hk
        simp only [magicAt, Bool.and_eq_true, decide_eq_true_eq] at this
        exact this.1
      rw [str_match_simple_found magicPat B (magicAt B) (fun j => j + 1) (fun _ => []) [] k
        (by decide) (magicPat_simple B) (by omega) hk hmin rfl]
      dsimp only
      simp only [List.getD_cons_zero, usizeOfInt_ofNat, usizeOfInt_cast_add_one]
      rw [ih (B.drop (k + 1)) (by simp [List.length_drop]; omega)]
      dsimp only
      rw [show escLookup ⟨[((k : Int), ((k + 1 : Nat) : Int))], B⟩ =
        [37, B.getD k 0] from by
          simp only [escLookup, ByteCaptures.get, List.getD_cons_zero, usizeOfInt_ofNat,
            sliceLE_one B k hklen]]
      rw [litPat_least B k hk hmin]
    · push_neg at hex
      have hnone : ∀ j, magicAt B j = false := fun j => by
        have := hex j
        revert this; cases magicAt B j <;> simp
      rw [str_match_simple_none magicPat B (magicAt B) (fun j => j + 1) (fun _ => [])
        (by decide) (magicPat_simple B) (fun j _ => hnone j)]
      rw [litPat_no_magic B hnone]

/-- The escaping pass of the builder produces exactly the claim's
`litPat`. -/
theorem escapeBytes_eq_litPat (B : List Nat) : escapeBytes B = .ok (some (litPat B)) := by
  rw [escapeBytes, gsub_bytes_with, gsubBytesAux_magic (B.length + 1) B (by omega)]

theorem magic_cases (b : Nat) (h : isMagicB b = true) :
    b = 45 ∨ b = 46 ∨ b = 43 ∨ b = 91 ∨ b = 93 ∨ b = 40 ∨ b = 41 ∨ b = 36 ∨ b = 94 ∨
    b = 37 ∨ b = 63 ∨ b = 42 := by
  simp only [isMagicB, Bool.or_eq_true, beq_iff_eq] at h
  tauto

theorem not_magic_facts (b : Nat) (hm : isMagicB b = false) :
    (b == 45) = false ∧ (b == 46) = false ∧ (b == 43) = false ∧ (b == 91) = false ∧
    (b == 93) = false ∧ (b == 40) = false ∧ (b == 41) = false ∧ (b == 36) = false ∧
    (b == 94) = false ∧ (b == 37) = false ∧ (b == 63) = false ∧ (b == 42) = false := by
  simp only [isMagicB, Bool.or_eq_false_iff, beq_eq_false_iff_ne, ne_eq] at hm
  simp only [beq_eq_false_iff_ne, ne_eq]
  omega

theorem magic_facts (b : Nat) (hm : isMagicB b = true) :
    (b == 98) = false ∧ (b == 102) = false ∧ isdigitB b = false := by
  rcases magic_cases b hm with rfl | rfl | rfl | rfl | rfl | rfl | rfl | rfl | rfl | rfl |
    rfl | rfl <;> exact ⟨rfl, rfl, rfl⟩

theorem magic_classMatch (b c : Nat) (hm : isMagicB b = true) :
    classMatch c b = (b == c) := by
  rcases magic_cases b hm with rfl | rfl | rfl | rfl | rfl | rfl | rfl | rfl | rfl | rfl |
    rfl | rfl <;> rfl

theorem litPat_head_not_quant (B : List Nat) :
    ((litPat B).getD 0 0 == 63) = false ∧ ((litPat B).getD 0 0 == 43) = false ∧
    ((litPat B).getD 0 0 == 42) = false ∧ ((litPat B).getD 0 0 == 45) = false := by
  cases B with
  | nil => exact ⟨rfl, rfl, rfl, rfl⟩
  | cons b r =>
    have hl : litPat (b :: r) = (if isMagicB b then [37, b] else [b]) ++ litPat r := by
      simp [litPat]
    rw [hl]
    by_cases hm : isMagicB b
    · simp [hm]
    · obtain ⟨h45, h46, h43, h91, h93, h40, h41, h36, h94, h37, h63, h42⟩ :=
        not_magic_facts b (by revert hm; cases isMagicB b <;> simp)
      rw [if_neg hm]
      simp only [List.cons_append, List.nil_append, List.getD_cons_zero]
      exact ⟨h63, h43, h42, h45⟩

theorem singlematch_nonmagic (patt subj : List Nat) (s p ep b : Nat)
    (hpc : patt.getD p 0 = b) (hm : isMagicB b = false) :
    singlematch patt subj s p ep = (decide (s < subj.length) && (b == subj.getD s 0)) := by
  have hfacts := not_magic_facts b hm
  rw [singlematch]
  split_ifs with h
  · simp only [hpc, hfacts.2.1, hfacts.2.2.2.1, hfacts.2.2.2.2.2.2.2.2.2.1, Bool.false_eq_true,
      if_neg, h, decide_eq_true_eq]
    simp [h]
  · simp [h]

theorem singlematch_escaped (patt subj : List Nat) (s p ep b : Nat)
    (hpc : patt.getD p 0 = 37) (hpb : patt.getD (p + 1) 0 = b) (hm : isMagicB b = true) :
    singlematch patt subj s p ep = (decide (s < subj.length) && (b == subj.getD s 0)) := by
  rw [singlematch]
  split_ifs with h
  · simp only [hpc, hpb, show ((37 : Nat) == 46) = false from rfl, Bool.false_eq_true, if_neg,
      show ((37 : Nat) == 37) = true from rfl, if_pos, magic_classMatch b _ hm]
    simp [h]
  · simp [h]

theorem litPat_cons (b : Nat) (B : List Nat) :
    litPat (b :: B) = (if isMagicB b then [37, b] else [b]) ++ litPat B := by
  simp [litPat]

theorem litAt_false_of_head (subj : List Nat) (b : Nat) (B' : List Nat) (s : Nat)
    (h : ¬(s < subj.length ∧ b = subj.getD s 0)) : litAt subj (b :: B') s = false := by
  rw [litAt]
  cases hB : (decide (s < subj.length) && (b == subj.getD s 0)) with
  | false => simp
  | true =>
    exact absurd (by simpa [Bool.and_eq_true, decide_eq_true_eq, beq_iff_eq] using hB) h

theorem litAt_true_head (subj : List Nat) (b : Nat) (B' : List Nat) (s : Nat)
    (h : s < subj.length ∧ b = subj.getD s 0) :
    litAt subj (b :: B') s = litAt subj B' (s + 1) := by
  rw [litAt]
  have hB : (decide (s < subj.length) && (b == subj.getD s 0)) = true := by
    simp [h.1, h.2]
  rw [hB, Bool.true_and]

set_option maxHeartbeats 1600000 in
theorem domatch_litPat : ∀ (B pre subj : List Nat) (fuel s : Nat) (caps : List Capture),
    B.length < fuel →
    domatch (pre ++ litPat B) subj fuel s pre.length caps =
      .ok (if litAt subj B s then some (s + B.length, caps) else none) := by
  intro B
  induction B with
  | nil =>
    intro pre subj fuel s caps hf
    obtain ⟨f, rfl⟩ : ∃ f, fuel = f + 1 := ⟨fuel - 1, by omega⟩
    rw [show litPat [] = [] from rfl, List.append_nil,
      domatch_pattEnd _ _ _ _ _ _ (le_refl _)]
    simp [litAt]
  | cons b B' ih =>
    intro pre subj fuel s caps hf
    obtain ⟨f, rfl⟩ : ∃ f, fuel = f + 1 := ⟨fuel - 1, by omega⟩
    have hfB : B'.length < f := by simp at hf; omega
    rw [litPat_cons]
    by_cases hm : isMagicB b
    · -- escaped unit [37, b]
      rw [if_pos hm, ← List.append_assoc]
      obtain ⟨m98, m102, mdig⟩ := magic_facts b hm
      have hpc : ((pre ++ [37, b] ++ litPat B').getD pre.length 0) = 37 := by
        rw [List.append_assoc, List.getD_append_right _ _ _ _ (le_refl _)]
        simp
      have hpb : ((pre ++ [37, b] ++ litPat B').getD (pre.length + 1) 0) = b := by
        rw [List.append_assoc, List.getD_append_right _ _ _ _ (by omega)]
        simp
      have hplen : pre.length < (pre ++ [37, b] ++ litPat B').length := by simp
      have hp1len : pre.length + 1 < (pre ++ [37, b] ++ litPat B').length := by simp
      have hce : classEnd (pre ++ [37, b] ++ litPat B') pre.length = .ok (pre.length + 2) := by
        simp only [classEnd, hpc]
        rw [if_pos (by rfl), if_pos hp1len]
      have hqc : ((pre ++ [37, b] ++ litPat B').getD (pre.length + 2) 0) =
          (litPat B').getD 0 0 := by
        rw [List.getD_append_right _ _ _ _ (by simp)]
        simp
      obtain ⟨q63, q43, q42, q45⟩ := litPat_head_not_quant B'
      have hsm := singlematch_escaped (pre ++ [37, b] ++ litPat B') subj s pre.length
        (pre.length + 2) b hpc hpb hm
      rw [domatch.eq_2, if_pos hplen]
      simp only [hpc, hpb, hce, hqc, hsm, m98, m102, mdig, q63, q43, q42, q45]
      norm_num
      simp only [← List.getD_eq_getElem?_getD]
      rw [show pre ++ 37 :: b :: litPat B' = (pre ++ [37, b]) ++ litPat B' from by simp,
        show pre.length + 2 = (pre ++ [37, b]).length from by simp,
        ih (pre ++ [37, b]) subj f (s + 1) caps hfB]
      by_cases hcnd : s < subj.length ∧ b = subj.getD s 0
      · rw [if_pos hcnd, litAt_true_head subj b B' s hcnd]
        have harith : s + 1 + B'.length = s + (B'.length + 1) := by omega
        rw [harith]
      · rw [if_neg hcnd, litAt_false_of_head subj b B' s hcnd]
        simp
    · -- plain literal unit [b]
      rw [if_neg hm, List.singleton_append]
      have hm' : isMagicB b = false := by revert hm; cases isMagicB b <;> simp
      obtain ⟨h45, h46, h43, h91, h93, h40, h41, h36, h94, h37, h63, h42⟩ :=
        not_magic_facts b hm'
      have hpc : ((pre ++ b :: litPat B').getD pre.length 0) = b := by
        rw [List.getD_append_right _ _ _ _ (le_refl _)]
        simp
      have hplen : pre.length < (pre ++ b :: litPat B').length := by simp
      have hce : classEnd (pre ++ b :: litPat B') pre.length = .ok (pre.length + 1) := by
        simp only [classEnd, hpc]
        rw [if_neg (by simp [h37]), if_neg (by simp [h91])]
      have hqc : ((pre ++ b :: litPat B').getD (pre.length + 1) 0) = (litPat B').getD 0 0 := by
        rw [show pre ++ b :: litPat B' = (pre ++ [b]) ++ litPat B' from by simp,
          List.getD_append_right _ _ _ _ (by simp)]
        simp
      obtain ⟨q63, q43, q42, q45⟩ := litPat_head_not_quant B'
      have hsm := singlematch_nonmagic (pre ++ b :: litPat B') subj s pre.length
        (pre.length + 1) b hpc hm'
      rw [domatch.eq_2, if_pos hplen]
      simp only [hpc, hce, hqc, hsm, h40, h41, h36, h37, h46, h91, q63, q43, q42, q45]
      norm_num
      simp only [← List.getD_eq_getElem?_getD]
      rw [show pre ++ b :: litPat B' = (pre ++ [b]) ++ litPat B' from by simp,
        show pre.length + 1 = (pre ++ [b]).length from by simp,
        ih (pre ++ [b]) subj f (s + 1) caps hfB]
      by_cases hcnd : s < subj.length ∧ b = subj.getD s 0
      · rw [if_pos hcnd, litAt_true_head subj b B' s hcnd]
        have harith : s + 1 + B'.length = s + (B'.length + 1) := by omega
        rw [harith]
      · rw [if_neg hcnd, litAt_false_of_head subj b B' s hcnd]
        simp

theorem litPat_length_ge : ∀ B : List Nat, B.length ≤ (litPat B).length
  | [] => le_refl _
  | b :: B' => by
    rw [litPat_cons]
    have := litPat_length_ge B'
    by_cases hm : isMagicB b <;> simp [hm] <;> omega

theorem litPat_simple (B subj : List Nat) :
    SimpleChar (litPat B) subj 0 (litAt subj B) (fun j => j + B.length) (fun _ => []) := by
  intro j
  have h := domatch_litPat B [] subj ((litPat B).length + 1) j []
    (by have := litPat_length_ge B; omega)
  simpa using h

theorem litPat_no_anchor (B : List Nat) : ((litPat B).getD 0 0 == 94) = false := by
  cases B with
  | nil => rfl
  | cons b r =>
    rw [litPat_cons]
    by_cases hm : isMagicB b
    · simp [hm]
    · obtain ⟨h45, h46, h43, h91, h93, h40, h41, h36, h94, h37, h63, h42⟩ :=
        not_magic_facts b (by revert hm; cases isMagicB b <;> simp)
      rw [if_neg hm]
      simpa using h94

theorem litAt_occurrence : ∀ (B pre post : List Nat),
    litAt (pre ++ B ++ post) B pre.length = true := by
  intro B
  induction B with
  | nil => intro pre post; rfl
  | cons b B' ih =>
    intro pre post
    have h2 : (pre ++ (b :: B') ++ post).getD pre.length 0 = b := by
      rw [List.append_assoc, List.getD_append_right _ _ _ _ (le_refl _)]
      simp
    rw [litAt_true_head _ _ _ _ ⟨by simp, h2.symm⟩]
    have h3 := ih (pre ++ [b]) post
    rw [show (pre ++ [b]) ++ B' ++ post = pre ++ (b :: B') ++ post from by simp] at h3
    rw [show pre.length + 1 = (pre ++ [b]).length from by simp]
    exact h3

theorem sliceLE_cons : ∀ (l : List Nat) (s e : Nat), s < l.length → s < e →
    sliceLE l s e = l.getD s 0 :: sliceLE l (s + 1) e
  | [], _, _, h, _ => by simp at h
  | x :: r, 0, e, _, he => by
    obtain ⟨e', rfl⟩ : ∃ e', e = e' + 1 := ⟨e - 1, by omega⟩
    simp [sliceLE]
  | x :: r, s + 1, e, h, he => by
    obtain ⟨e', rfl⟩ : ∃ e', e = e' + 1 := ⟨e - 1, by omega⟩
    have ih := sliceLE_cons r s e' (by simp at h; omega) (by omega)
    simpa [sliceLE, List.take_succ_cons, List.drop_succ_cons] using ih

theorem litAt_slice : ∀ (B subj : List Nat) (s : Nat), litAt subj B s = true →
    sliceLE subj s (s + B.length) = B
  | [], subj, s, _ => by
    simp only [List.length_nil, Nat.add_zero, sliceLE]
    exact List.drop_eq_nil_of_le (by simp)
  | b :: B', subj, s, h => by
    rw [litAt] at h
    have hhead : (decide (s < subj.length) && (b == subj.getD s 0)) = true := by
      revert h; cases (decide (s < subj.length) && (b == subj.getD s 0)) <;> simp
    have htail : litAt subj B' (s + 1) = true := by
      revert h; rw [hhead, Bool.true_and]; exact id
    simp only [Bool.and_eq_true, decide_eq_true_eq, beq_iff_eq] at hhead
    rw [List.length_cons, sliceLE_cons subj s (s + (B'.length + 1)) hhead.1 (by omega),
      ← hhead.2, show s + (B'.length + 1) = (s + 1) + B'.length from by omega,
      litAt_slice B' subj (s + 1) htail]

theorem specHexScan_bytes_to_hex : ∀ b : List Nat, (∀ x ∈ b, x < 256) →
    specHexScan (bytes_to_hex b) = b
  | [], _ => rfl
  | x :: r, hb => by
    have hx : x < 256 := hb x (List.mem_cons_self x r)
    have h1 : x / 16 < 16 := by omega
    have h2 : x % 16 < 16 := by omega
    have hbx : bytes_to_hex (x :: r) = hexUp (x / 16) :: hexUp (x % 16) :: bytes_to_hex r := by
      simp [bytes_to_hex, byteToHex]
    rw [hbx, specHexScan, if_pos (by simp [isxdigitB_hexUp _ h1, isxdigitB_hexUp _ h2]),
      hexDigitVal_hexUp _ h1, hexDigitVal_hexUp _ h2,
      specHexScan_bytes_to_hex r (fun y hy => hb y (List.mem_cons_of_mem x hy))]
    congr 1
    omega

/-! # Theorems -/

/-- **C1** (refuted; the code diverges from the spec here).  The spec
requires the global iterators to advance the remaining subject by one byte
after a zero-width match so that at most `|subject| + 1` items are yielded.
The source's `GMatch::next` and `GMatchBytes::next` advance only to
`range().end`: for pattern `"a*"` and the one-byte subject `"b"` the first
match is zero-width, the remaining subject is left unchanged (third and
fourth conjuncts), and driving either iterator `|subject| + 2 = 3` times
yields `3 > |subject| + 1` empty items (first and second conjuncts) — it
never terminates. -/
theorem c1_gmatch_zero_width_no_progress :
    (gmatchIter (from_bytes (strBytes "a*")) (strBytes "b") ((strBytes "b").length + 2) =
      .ok (List.replicate ((strBytes "b").length + 2) [])) ∧
    (gmatchBytesIter (from_bytes (strBytes "a*")) (strBytes "b") ((strBytes "b").length + 2) =
      .ok (List.replicate ((strBytes "b").length + 2) [])) ∧
    ((gmatch_next (from_bytes (strBytes "a*")) (strBytes "b")).map
      (Option.map fun r => (r.1, r.2.2)) = .ok (some ([], strBytes "b"))) ∧
    ((gmatch_bytes_next (from_bytes (strBytes "a*")) (strBytes "b")).map
      (Option.map fun r => (r.1, r.2.2)) = .ok (some ([], strBytes "b"))) := by
  decide

/-- **C2** (counterexample).  The claim asserts
`span[0].start ≤ span[i].start ≤ span[i].end ≤ span[0].end` for *every*
user capture of a successful match.  The position capture of pattern `"()"`
against the empty subject is stored with the `POSITION_MARKER` end sentinel
`-1`, so its span has `start = 0 > end = -1`. -/
theorem c2_position_capture_counterexample :
    str_match (strBytes "()") (strBytes "") = .ok (some [((0 : Int), 0), (0, -1)]) ∧
    ¬ ((0 : Int) ≤ -1) := by
  decide

/-- **C3** (counterexample).  The claim asserts that `try_new` errors *iff*
the pattern is structurally malformed per the §7 table.  The pattern
`"bonzo %"` ends with a bare `%` (first row of the table, formalized by
`str_check`), yet the validating run against the empty subject fails on the
leading literal `b` before ever reaching the trailing `%`, so `try_new`
accepts the pattern. -/
theorem c3_try_new_misses_malformed :
    try_new (strBytes "bonzo %") = .ok () ∧
    str_check (strBytes "bonzo %") = .error .endsPercent := by
  decide

/-- **C7** (confirmed).  After any `matches_bytes` call on a handle, the
resulting handle's `first_capture()` is `capture(1)` when `n_match > 1` and
`capture(0)` otherwise. -/
theorem c7_first_capture (h : LuaPatternH) (s : List Nat) (h' : LuaPatternH) (b : Bool)
    (_hm : matches_bytes h s = .ok (h', b)) :
    (h'.n_match > 1 → first_capture h' = capture h' 1) ∧
    (¬ h'.n_match > 1 → first_capture h' = capture h' 0) := by
  constructor <;> intro hn <;> simp [first_capture, hn]

/-- Witness for **C7** at pattern `"one"`, subject `"one"` (a match call
with `n_match = 1`). -/
theorem c7_first_capture_witness :
    ((⟨strBytes "one", ((0 : Int), (3 : Int)) :: List.replicate 31 ((0 : Int), (0 : Int)),
        1⟩ : LuaPatternH).n_match > 1 →
      first_capture ⟨strBytes "one",
        ((0 : Int), (3 : Int)) :: List.replicate 31 ((0 : Int), (0 : Int)), 1⟩ =
      capture ⟨strBytes "one",
        ((0 : Int), (3 : Int)) :: List.replicate 31 ((0 : Int), (0 : Int)), 1⟩ 1) ∧
    (¬ (⟨strBytes "one", ((0 : Int), (3 : Int)) :: List.replicate 31 ((0 : Int), (0 : Int)),
        1⟩ : LuaPatternH).n_match > 1 →
      first_capture ⟨strBytes "one",
        ((0 : Int), (3 : Int)) :: List.replicate 31 ((0 : Int), (0 : Int)), 1⟩ =
      capture ⟨strBytes "one",
        ((0 : Int), (3 : Int)) :: List.replicate 31 ((0 : Int), (0 : Int)), 1⟩ 0) :=
  c7_first_capture (from_bytes (strBytes "one")) (strBytes "one") _ true (by decide)

/-- **C9** (confirmed).  Each builder operation appends to the accumulated
bytes in call order (`text` the raw bytes, `text_lines` the first token of
each line, `bytes` the escaped bytes, `bytes_as_hex` the escaped decoded
bytes), `build` hands out exactly the accumulated bytes and resets the
builder to empty, and a second `build` immediately afterwards returns the
empty vector. -/
theorem c9_builder_accumulates_and_build_resets :
    (∀ b s, (builderText b s).bytes = b.bytes ++ s) ∧
    (∀ b s, (builderTextLines b s).bytes = b.bytes ++ ((linesOf s).map firstToken).flatten) ∧
    (∀ b s es, escapeBytes s = .ok (some es) →
      builderBytes b s = .ok (some ⟨b.bytes ++ es⟩)) ∧
    (∀ b s bs es, hex_to_bytes s = .ok bs → escapeBytes bs = .ok (some es) →
      builderBytesAsHex b s = .ok (some ⟨b.bytes ++ es⟩)) ∧
    (∀ b, build b = (b.bytes, ⟨[]⟩)) ∧
    (∀ b, (build (build b).2).1 = []) := by
  refine ⟨fun b s => rfl, fun b s => rfl, fun b s es h => ?_, fun b s bs es h1 h2 => ?_,
    fun b => rfl, fun b => rfl⟩
  · simp [builderBytes, h]
  · simp [builderBytesAsHex, h1, builderBytes, h2]

/-- Witness for **C9**: building from the magic byte `"^"` appends `"%^"`. -/
theorem c9_builder_witness :
    builderBytes builderNew (strBytes "^") = .ok (some ⟨builderNew.bytes ++ strBytes "%^"⟩) :=
  c9_builder_accumulates_and_build_resets.2.2.1 builderNew (strBytes "^") (strBytes "%^")
    (by decide)

/-- **C10** (confirmed).  For every string `s`, `hex_to_bytes s` returns one
byte per leftmost non-overlapping pair of adjacent hex digits of `s`, in
order; non-hex separators between pairs contribute nothing and an unpaired
trailing hex digit is silently dropped (the `specHexScan` reference
scanner). -/
theorem c10_hex_to_bytes_leftmost_pairs (s : List Nat) :
    hex_to_bytes s = .ok (specHexScan s) :=
  hex_to_bytes_eq_spec s

/-- **C5** (confirmed).  Hex-encoding then hex-decoding is the identity on
byte sequences. -/
theorem c5_hex_roundtrip (b : List Nat) (hb : ∀ x ∈ b, x < 256) :
    hex_to_bytes (bytes_to_hex b) = .ok b := by
  rw [hex_to_bytes_eq_spec, specHexScan_bytes_to_hex b hb]

/-- Witness for **C5** at `[0xAE, 0xFE, 0x00, 0xFE]`. -/
theorem c5_hex_roundtrip_witness :
    hex_to_bytes (bytes_to_hex [0xAE, 0xFE, 0x00, 0xFE]) = .ok [0xAE, 0xFE, 0x00, 0xFE] :=
  c5_hex_roundtrip [0xAE, 0xFE, 0x00, 0xFE] (by decide)

/-- **C6** (confirmed).  The builder's escaping helper turns any byte
sequence `B` into `B` with every magic byte (`^ $ ( ) % . [ ] * + - ?`)
prefixed by `%` and every other byte unchanged (`litPat B`), and matching
the built pattern against any subject containing `B` succeeds with a
whole-match span whose content is exactly `B`. -/
theorem c6_escape_builds_exact_matcher (B subj pre post : List Nat)
    (hocc : subj = pre ++ B ++ post) :
    escapeBytes B = .ok (some (litPat B)) ∧
    ∃ st : Nat,
      str_match (litPat B) subj = .ok (some [((st : Int), ((st + B.length : Nat) : Int))]) ∧
      sliceLE subj st (st + B.length) = B := by
  refine ⟨escapeBytes_eq_litPat B, ?_⟩
  have hex : ∃ j, litAt subj B j = true :=
    ⟨pre.length, by rw [hocc]; exact litAt_occurrence B pre post⟩
  set k := Nat.find hex with hkdef
  have hk : litAt subj B k = true := Nat.find_spec hex
  have hmin : ∀ j, j < k → litAt subj B j = false := fun j hj => by
    have := Nat.find_min hex hj
    revert this; cases litAt subj B j <;> simp
  have hkpre : k ≤ pre.length := Nat.find_min' hex (by rw [hocc]; exact litAt_occurrence B pre post)
  have hkn : k ≤ subj.length := by
    have : pre.length ≤ subj.length := by rw [hocc]; simp
    omega
  exact ⟨k, str_match_simple_found (litPat B) subj (litAt subj B) (fun j => j + B.length)
    (fun _ => []) [] k (litPat_no_anchor B) (litPat_simple B subj) hkn hk hmin rfl,
    litAt_slice B subj k hk⟩

/-- Witness for **C6**: `B = "[a"` inside the subject `[0x00, '[', 'a', 0x05]`. -/
theorem c6_escape_builds_exact_matcher_witness :
    escapeBytes [91, 97] = .ok (some (litPat [91, 97])) ∧
    ∃ st : Nat,
      str_match (litPat [91, 97]) [0, 91, 97, 5] =
        .ok (some [((st : Int), ((st + [91, 97].length : Nat) : Int))]) ∧
      sliceLE [0, 91, 97, 5] st (st + [91, 97].length) = [91, 97] :=
  c6_escape_builds_exact_matcher [91, 97] [0, 91, 97, 5] [0] [5] rfl

theorem gsubPat_eq : gsubPat = [37, 37, 40, 91, 37, 37, 37, 100, 93, 41] := by decide

theorem gsub_bracket (c : Nat) :
    matchBracketClass [37, 37, 40, 91, 37, 37, 37, 100, 93, 41] c 3 8 =
      ((37 == c) || isdigitB c) := by
  rw [Bool.eq_iff_iff]
  simp [matchBracketClass, matchClassInSet, classMatch, tolowerB, isupperB, isalphaB, isdigitB]

set_option maxHeartbeats 1600000 in
theorem domatch_gsubPat9 (subj : List Nat) (s u : Nat) :
    domatch gsubPat subj 8 s 9 [⟨u, .unfinished⟩] =
      .ok (some (s, [⟨u, .closed s⟩])) := by
  rw [show (8 : Nat) = Nat.succ 7 from rfl, domatch.eq_2]
  simp only [gsubPat_eq, List.length_cons, List.length_nil, List.getD_cons_zero,
    List.getD_cons_succ]
  norm_num [lastIdxWhere, lastIdxWhereAux]
  exact domatch_pattEnd _ _ 6 _ _ _ (by norm_num)

theorem singlematch_gsub3 (subj : List Nat) (s : Nat) :
    singlematch gsubPat subj s 3 9 =
      (decide (s < subj.length) && ((37 == subj.getD s 0) || isdigitB (subj.getD s 0))) := by
  by_cases h : s < subj.length
  · simp only [singlematch, if_pos h, gsubPat_eq, List.getD_cons_zero, List.getD_cons_succ]
    norm_num
    rw [gsub_bracket]
    simp [h]
  · simp [singlematch, h]

set_option maxHeartbeats 1600000 in
theorem domatch_gsubPat3 (subj : List Nat) (s u : Nat) :
    domatch gsubPat subj 9 s 3 [⟨u, .unfinished⟩] =
      .ok (if s < subj.length ∧ ((37 == subj.getD s 0) || isdigitB (subj.getD s 0)) = true then
        some (s + 1, [⟨u, .closed (s + 1)⟩]) else none) := by
  rw [show (9 : Nat) = Nat.succ 8 from rfl, domatch.eq_2]
  simp only [gsubPat_eq, List.length_cons, List.length_nil, List.getD_cons_zero,
    List.getD_cons_succ]
  rw [show classEnd [37, 37, 40, 91, 37, 37, 37, 100, 93, 41] 3 = .ok 9 from by decide]
  rw [show [37, 37, 40, 91, 37, 37, 37, 100, 93, 41] = gsubPat from gsubPat_eq.symm]
  dsimp only
  rw [if_pos (by norm_num : (3:Nat) < 0+1+1+1+1+1+1+1+1+1+1),
    if_neg (by decide : ¬((91 == 40) = true)),
    if_neg (by decide : ¬((91 == 41) = true)),
    if_neg (by decide : ¬((91 == 36 && 3+1 == 0+1+1+1+1+1+1+1+1+1+1) = true)),
    if_neg (by decide : ¬((91 == 37 && 37 == 98) = true)),
    if_neg (by decide : ¬((91 == 37 && 37 == 102) = true)),
    if_neg (by decide : ¬((91 == 37 && isdigitB 37) = true)),
    show List.getD gsubPat 9 0 = 41 from by decide,
    if_neg (by decide : ¬((41 == 63) = true)),
    if_neg (by decide : ¬((41 == 43) = true)),
    if_neg (by decide : ¬((41 == 42) = true)),
    if_neg (by decide : ¬((41 == 45) = true)),
    singlematch_gsub3, domatch_gsubPat9]
  simp only [Bool.and_eq_true, decide_eq_true_eq]
  split_ifs <;> rfl

theorem singlematch_gsub0 (subj : List Nat) (s : Nat) :
    singlematch gsubPat subj s 0 2 =
      (decide (s < subj.length) && (37 == subj.getD s 0)) := by
  by_cases h : s < subj.length
  · simp only [singlematch, if_pos h, gsubPat_eq, List.getD_cons_zero, List.getD_cons_succ]
    norm_num [classMatch, tolowerB, isupperB]
    simp [h]
  · simp [singlematch, h]

theorem domatch_gsubPat2 (subj : List Nat) (s : Nat) :
    domatch gsubPat subj 10 s 2 [] =
      .ok (if s < subj.length ∧ ((37 == subj.getD s 0) || isdigitB (subj.getD s 0)) = true then
        some (s + 1, [⟨s, .closed (s + 1)⟩]) else none) := by
  rw [show (10 : Nat) = Nat.succ 9 from rfl, domatch.eq_2]
  simp only [gsubPat_eq, List.length_cons, List.length_nil, List.getD_cons_zero,
    List.getD_cons_succ]
  rw [show [37, 37, 40, 91, 37, 37, 37, 100, 93, 41] = gsubPat from gsubPat_eq.symm]
  simp only [List.nil_append]
  rw [if_pos (by norm_num : (2:Nat) < 0+1+1+1+1+1+1+1+1+1+1),
    if_pos (by decide : ((40 == 40) = true)),
    if_neg (by decide : ¬(MAXCAPTURES ≤ (0:Nat))),
    if_neg (by decide : ¬((91 == 41) = true)),
    show (2:Nat)+1 = 3 from rfl]
  rw [domatch_gsubPat3]

theorem domatch_gsubPat0 (subj : List Nat) (s : Nat) :
    domatch gsubPat subj 11 s 0 [] =
      .ok (if escAt subj s = true then some (s + 2, [⟨s + 1, .closed (s + 2)⟩]) else none) := by
  rw [show (11 : Nat) = Nat.succ 10 from rfl, domatch.eq_2]
  simp only [gsubPat_eq, List.length_cons, List.length_nil, List.getD_cons_zero,
    List.getD_cons_succ]
  rw [show classEnd [37, 37, 40, 91, 37, 37, 37, 100, 93, 41] 0 = .ok 2 from by decide]
  rw [show [37, 37, 40, 91, 37, 37, 37, 100, 93, 41] = gsubPat from gsubPat_eq.symm]
  dsimp only
  rw [if_pos (by norm_num : (0:Nat) < 0+1+1+1+1+1+1+1+1+1+1),
    if_neg (by decide : ¬((37 == 40) = true)),
    if_neg (by decide : ¬((37 == 41) = true)),
    if_neg (by decide : ¬((37 == 36 && 0+1 == 0+1+1+1+1+1+1+1+1+1+1) = true)),
    if_neg (by decide : ¬((37 == 37 && 37 == 98) = true)),
    if_neg (by decide : ¬((37 == 37 && 37 == 102) = true)),
    if_neg (by decide : ¬((37 == 37 && isdigitB 37) = true)),
    show List.getD gsubPat 2 0 = 40 from by decide,
    if_neg (by decide : ¬((40 == 63) = true)),
    if_neg (by decide : ¬((40 == 43) = true)),
    if_neg (by decide : ¬((40 == 42) = true)),
    if_neg (by decide : ¬((40 == 45) = true)),
    singlematch_gsub0, domatch_gsubPat2]
  rw [show s+1+1 = s+2 from rfl]
  by_cases h1 : s + 1 < subj.length
  · have h0 : s < subj.length := by omega
    by_cases hc : subj.getD s 0 = 37
    · rw [if_pos (show (decide (s < subj.length) && 37 == subj.getD s 0) = true by
        simp only [Bool.and_eq_true, decide_eq_true_eq, beq_iff_eq]
        exact ⟨h0, hc.symm⟩)]
      by_cases hd : (37 == subj.getD (s + 1) 0 || isdigitB (subj.getD (s + 1) 0)) = true
      · have hd' : 37 = subj.getD (s + 1) 0 ∨ isdigitB (subj.getD (s + 1) 0) = true := by
          simpa only [Bool.or_eq_true, beq_iff_eq] using hd
        rw [if_pos ⟨h1, hd⟩, if_pos (show escAt subj s = true by
          simp only [escAt, Bool.and_eq_true, Bool.or_eq_true, decide_eq_true_eq, beq_iff_eq]
          exact ⟨⟨h1, hc⟩, hd'.imp Eq.symm id⟩)]
      · have hd' : ¬(37 = subj.getD (s + 1) 0 ∨ isdigitB (subj.getD (s + 1) 0) = true) := by
          simpa only [Bool.or_eq_true, beq_iff_eq] using hd
        rw [if_neg (show ¬(s + 1 < subj.length ∧
              (37 == subj.getD (s + 1) 0 || isdigitB (subj.getD (s + 1) 0)) = true) from
            fun h => hd h.2),
          if_neg (show ¬(escAt subj s = true) by
            simp only [escAt, Bool.and_eq_true, Bool.or_eq_true, decide_eq_true_eq, beq_iff_eq]
            exact fun h => hd' (h.2.imp Eq.symm id))]
    · rw [if_neg (show ¬((decide (s < subj.length) && 37 == subj.getD s 0) = true) by
          simp only [Bool.and_eq_true, decide_eq_true_eq, beq_iff_eq]
          exact fun h => hc h.2.symm),
        if_neg (show ¬(escAt subj s = true) by
          simp only [escAt, Bool.and_eq_true, Bool.or_eq_true, decide_eq_true_eq, beq_iff_eq]
          exact fun h => hc h.1.2)]
  · rw [if_neg (show ¬(escAt subj s = true) by
        simp only [escAt, Bool.and_eq_true, Bool.or_eq_true, decide_eq_true_eq, beq_iff_eq]
        exact fun h => h1 h.1.1)]
    by_cases hb : (decide (s < subj.length) && 37 == subj.getD s 0) = true
    · rw [if_pos hb, if_neg (show ¬(s + 1 < subj.length ∧
          (37 == subj.getD (s + 1) 0 || isdigitB (subj.getD (s + 1) 0)) = true) from
        fun h => h1 h.1)]
    · rw [if_neg hb]

theorem gsubPat_simple (subj : List Nat) :
    SimpleChar gsubPat subj 0 (escAt subj) (fun j => j + 2)
      (fun j => [⟨j + 1, .closed (j + 2)⟩]) := by
  intro j
  rw [show gsubPat.length + 1 = 11 from by rw [gsubPat_eq]; rfl, domatch_gsubPat0]

theorem escAt_lt (slice : List Nat) (k : Nat) (h : escAt slice k = true) :
    k + 1 < slice.length := by
  simp only [escAt, Bool.and_eq_true, decide_eq_true_eq] at h
  exact h.1.1

theorem escAt_cons (a : Nat) (l : List Nat) (j : Nat) :
    escAt (a :: l) (j + 1) = escAt l j := by
  simp [escAt, Nat.add_lt_add_iff_right]

theorem str_match_gsubPat_found (slice : List Nat) (k : Nat)
    (hk : escAt slice k = true) (hmin : ∀ j, j < k → escAt slice j = false) :
    str_match gsubPat slice =
      .ok (some [((k : Int), ((k + 2 : Nat) : Int)),
        (((k + 1 : Nat) : Int), ((k + 2 : Nat) : Int))]) := by
  have hkn : k ≤ slice.length := by
    have := escAt_lt slice k hk
    omega
  exact str_match_simple_found gsubPat slice (escAt slice) (fun j => j + 2)
    (fun j => [⟨j + 1, .closed (j + 2)⟩])
    [(((k + 1 : Nat) : Int), ((k + 2 : Nat) : Int))] k (by decide)
    (gsubPat_simple slice) hkn hk hmin rfl

theorem str_match_gsubPat_none (slice : List Nat)
    (hnone : ∀ j, escAt slice j = false) :
    str_match gsubPat slice = .ok none :=
  str_match_simple_none gsubPat slice (escAt slice) (fun j => j + 2)
    (fun j => [⟨j + 1, .closed (j + 2)⟩]) (by decide)
    (gsubPat_simple slice) (fun j _ => hnone j)

theorem sliceLE_pair : ∀ (l : List Nat) (k : Nat), k + 1 < l.length →
    sliceLE l (k + 1) (k + 2) = [l.getD (k + 1) 0]
  | [], _, h => by simp at h
  | a :: t, 0, h => by
    rcases t with _ | ⟨b, t2⟩
    · simp at h
    · simp [sliceLE]
  | a :: t, k + 1, h => by
    have ht := sliceLE_pair t k (by simpa using h)
    simpa [sliceLE, List.take_succ_cons, List.drop_succ_cons] using ht

theorem specExpandT_cons_noesc (γ : Nat → List Nat) (a : Nat) (l : List Nat)
    (h : escAt (a :: l) 0 = false) : specExpandT γ (a :: l) = a :: specExpandT γ l := by
  by_cases ha : a = 37
  · subst ha
    rcases l with _ | ⟨c, r⟩
    · rfl
    · have h2 : (c == 37 || isdigitB c) = false := by
        simp only [escAt, List.getD_cons_zero, List.getD_cons_succ, List.length_cons] at h
        simpa using h
      have hc : (c == 37) = false := by
        rcases Bool.or_eq_false_iff.mp h2 with ⟨h3, _⟩
        exact h3
      have hd : isdigitB c = false := by
        rcases Bool.or_eq_false_iff.mp h2 with ⟨_, h4⟩
        exact h4
      simp [specExpandT, hc, hd]
  · rcases l with _ | ⟨c, r⟩
    · simp [specExpandT, ha]
    · simp [specExpandT, ha]

theorem specExpandT_no_esc (γ : Nat → List Nat) :
    ∀ slice : List Nat, (∀ j, escAt slice j = false) → specExpandT γ slice = slice
  | [], _ => rfl
  | a :: l, h => by
    rw [specExpandT_cons_noesc γ a l (h 0), specExpandT_no_esc γ l (fun j => by
      have := h (j + 1)
      rwa [escAt_cons] at this)]

theorem specExpandT_least (γ : Nat → List Nat) :
    ∀ (k : Nat) (slice : List Nat), escAt slice k = true →
      (∀ j, j < k → escAt slice j = false) →
      specExpandT γ slice = slice.take k ++
        (if slice.getD (k + 1) 0 = 37 then [37] else γ (slice.getD (k + 1) 0 - 48)) ++
        specExpandT γ (slice.drop (k + 2))
  | 0, slice, hk, _ => by
    rcases slice with _ | ⟨a, _ | ⟨c, r⟩⟩
    · simp [escAt] at hk
    · simp [escAt] at hk
    · simp only [escAt, List.getD_cons_zero, List.getD_cons_succ, List.length_cons,
        Bool.and_eq_true, decide_eq_true_eq, beq_iff_eq, Bool.or_eq_true] at hk
      obtain ⟨⟨-, ha⟩, hc⟩ := hk
      subst ha
      by_cases hc37 : c = 37
      · subst hc37
        simp [specExpandT]
      · have hd : isdigitB c = true := by
          rcases hc with h | h
          · exact absurd h hc37
          · exact h
        simp [specExpandT, hc37, hd]
  | k + 1, slice, hk, hmin => by
    rcases slice with _ | ⟨a, l⟩
    · simp [escAt] at hk
    · have hk2 : escAt l k = true := by rwa [escAt_cons] at hk
      have hmin2 : ∀ j, j < k → escAt l j = false := fun j hj => by
        have := hmin (j + 1) (by omega)
        rwa [escAt_cons] at this
      have h0 : escAt (a :: l) 0 = false := hmin 0 (by omega)
      rw [specExpandT_cons_noesc γ a l h0, specExpandT_least γ k l hk2 hmin2]
      simp [List.take_succ_cons, List.drop_succ_cons, List.getD_cons_succ]

theorem expandWith_append (γ : Nat → List Nat) (l1 l2 : List Subst) :
    expandWith γ (l1 ++ l2) = expandWith γ l1 ++ expandWith γ l2 := by
  simp [expandWith]

theorem expandWith_lead (γ : Nat → List Nat) (b : List Nat) :
    expandWith γ (if b ≠ [] then [Subst.Text b] else []) = b := by
  by_cases hb : b = [] <;> simp [expandWith, hb]

theorem expandWith_cons_elem (γ : Nat → List Nat) (e : Subst) (rest : List Subst) :
    expandWith γ (e :: rest) =
      (match e with | .Text t => t | .Capture i => γ i) ++ expandWith γ rest := by
  simp [expandWith]

theorem genGsubAux_found (fuel : Nat) (slice : List Nat) (k : Nat)
    (hk : escAt slice k = true) (hmin : ∀ j, j < k → escAt slice j = false) :
    genGsubAux (fuel + 1) slice =
      match genGsubAux fuel (slice.drop (k + 2)) with
      | .error e => .error e
      | .ok none => .ok none
      | .ok (some rest) =>
        .ok (some ((if slice.take k ≠ [] then [Subst.Text (slice.take k)] else []) ++
          (if slice.getD (k + 1) 0 = 37 then Subst.Text [37]
           else Subst.Capture (slice.getD (k + 1) 0 - 48)) :: rest)) := by
  rw [genGsubAux, str_match_gsubPat_found slice k hk hmin]
  dsimp only
  simp only [List.getD_cons_zero, List.getD_cons_succ, usizeOfInt_ofNat]
  rw [sliceLE_pair slice k (escAt_lt slice k hk)]
  simp only [List.cons.injEq, and_true, List.getD_cons_zero]

theorem genGsubAux_spec : ∀ (fuel : Nat) (slice : List Nat), slice.length < fuel →
    ∃ ps, genGsubAux fuel slice = .ok (some ps) ∧
      ∀ γ : Nat → List Nat, expandWith γ ps = specExpandT γ slice := by
  intro fuel
  induction fuel with
  | zero => intro slice h; omega
  | succ fuel ih =>
    intro slice hlen
    by_cases hex : ∃ j, escAt slice j = true
    · have hk : escAt slice (Nat.find hex) = true := Nat.find_spec hex
      have hmin : ∀ j, j < Nat.find hex → escAt slice j = false := fun j hj => by
        have := Nat.find_min hex hj
        revert this
        cases escAt slice j <;> simp
      have hk1 : Nat.find hex + 1 < slice.length := escAt_lt slice (Nat.find hex) hk
      obtain ⟨rest, hrest, hexp⟩ := ih (slice.drop (Nat.find hex + 2)) (by
        rw [List.length_drop]
        omega)
      refine ⟨(if slice.take (Nat.find hex) ≠ [] then
          [Subst.Text (slice.take (Nat.find hex))] else []) ++
        (if slice.getD (Nat.find hex + 1) 0 = 37 then Subst.Text [37]
         else Subst.Capture (slice.getD (Nat.find hex + 1) 0 - 48)) :: rest, ?_, ?_⟩
      · rw [genGsubAux_found fuel slice (Nat.find hex) hk hmin, hrest]
      · intro γ
        rw [expandWith_append, expandWith_lead, expandWith_cons_elem, hexp γ,
          specExpandT_least γ (Nat.find hex) slice hk hmin, List.append_assoc]
        congr 2
        by_cases hc : slice.getD (Nat.find hex + 1) 0 = 37
        · rw [if_pos hc, if_pos hc]
        · rw [if_neg hc, if_neg hc]
    · push_neg at hex
      have hnone : ∀ j, escAt slice j = false := fun j => by
        have := hex j
        revert this
        cases escAt slice j <;> simp
      refine ⟨[Subst.Text slice], ?_, ?_⟩
      · rw [genGsubAux, str_match_gsubPat_none slice hnone]
      · intro γ
        rw [specExpandT_no_esc γ slice hnone]
        simp [expandWith]

/-- **C8**: when the pattern does not match the subject at all (the first
match attempt of the substitution loop fails), `gsub_with`,
`gsub_bytes_with` and `gsub` all return the subject unchanged. -/
theorem c8_gsub_identity_on_no_match (patt text repl : List Nat)
    (lookup : Captures → List Nat) (lookupB : ByteCaptures → List Nat)
    (h : str_match patt text = .ok none) :
    gsub_with patt text lookup = .ok (some text) ∧
    gsub_bytes_with patt text lookupB = .ok (some text) ∧
    gsub patt text repl = .ok (some text) := by
  refine ⟨?_, ?_, ?_⟩
  · rw [gsub_with, gsubWithAux, h]
  · rw [gsub_bytes_with, gsubBytesAux, h]
  · obtain ⟨ps, hps, -⟩ := genGsubAux_spec (repl.length + 1) repl (by omega)
    have hgen : generate_gsub_patterns repl = .ok (some ps) := hps
    rw [gsub, hgen]
    dsimp only
    rw [gsubAux, h]

/-- Witness for **C8**: pattern `"a"` does not match subject `"b"`. -/
theorem c8_gsub_identity_on_no_match_witness :
    str_match [97] [98] = .ok none ∧
    (gsub_with [97] [98] (fun _ => []) = .ok (some [98]) ∧
     gsub_bytes_with [97] [98] (fun _ => []) = .ok (some [98]) ∧
     gsub [97] [98] [] = .ok (some [98])) :=
  ⟨by decide, c8_gsub_identity_on_no_match [97] [98] [] (fun _ => []) (fun _ => [])
    (by decide)⟩

/-- **C4**: `gsub` pre-parses the replacement template exactly as the claim
reads it (`%%` a literal `%`, `%<digit>` the numbered capture, with index
`0` the whole match, everything else copied byte-for-byte), and on the
concrete example `(%S+)%s*=%s*(%S+);%s*` over `"a=2; b=3; c = 4;"` with
template `"'%2':%1 "` it produces `"'2':a '3':b '4':c "`. -/
theorem c4_gsub_template_grammar_and_example :
    (∀ repl : List Nat, ∃ ps, generate_gsub_patterns repl = .ok (some ps) ∧
      ∀ cc : Captures, expandSubsts cc ps = specExpandT (fun i => cc.get i) repl) ∧
    gsub (strBytes "(%S+)%s*=%s*(%S+);%s*") (strBytes "a=2; b=3; c = 4;")
        (strBytes "'%2':%1 ") =
      .ok (some (strBytes "'2':a '3':b '4':c ")) := by
  constructor
  · intro repl
    obtain ⟨ps, hps, hexp⟩ := genGsubAux_spec (repl.length + 1) repl (by omega)
    exact ⟨ps, hps, fun cc => hexp (fun i => cc.get i)⟩
  · decide

theorem Evolve_refl (s e : Nat) (caps : List Capture) : Evolve s e caps caps :=
  ⟨le_rfl, fun i _ => ⟨rfl, Or.inl rfl⟩, fun i h1 h2 => absurd h2 (by omega)⟩

theorem Evolve_mono (s s2 e : Nat) (caps caps' : List Capture) (hs : s ≤ s2)
    (h : Evolve s2 e caps caps') : Evolve s e caps caps' := by
  obtain ⟨h1, h2, h3⟩ := h
  refine ⟨h1, fun i hi => ?_, fun i hi1 hi2 => ?_⟩
  · obtain ⟨ha, hb⟩ := h2 i hi
    refine ⟨ha, hb.imp id fun ⟨hu, e0, hc, hl, hr⟩ => ⟨hu, e0, hc, by omega, hr⟩⟩
  · obtain ⟨ha, hb, hc⟩ := h3 i hi1 hi2
    exact ⟨by omega, hb, hc⟩

theorem Evolve_push (s e : Nat) (caps caps' : List Capture) (stp : CapStop)
    (hse : s ≤ e)
    (hstp : stp = CapStop.unfinished ∨ stp = CapStop.position)
    (h : Evolve s e (caps ++ [⟨s, stp⟩]) caps') : Evolve s e caps caps' := by
  obtain ⟨h1, h2, h3⟩ := h
  rw [List.length_append, List.length_cons, List.length_nil] at h1
  refine ⟨by omega, fun i hi => ?_, fun i hi1 hi2 => ?_⟩
  · obtain ⟨ha, hb⟩ := h2 i (by rw [List.length_append]; simp; omega)
    rw [List.getD_append _ _ _ _ (by omega)] at ha hb
    exact ⟨ha, hb⟩
  · rcases Nat.lt_or_ge i (caps.length + 1) with hlt | hge
    · have hieq : i = caps.length := by omega
      subst hieq
      obtain ⟨ha, hb⟩ := h2 caps.length (by rw [List.length_append]; simp)
      have hx : (caps ++ [(⟨s, stp⟩ : Capture)]).getD caps.length capDef = ⟨s, stp⟩ := by
        rw [List.getD_append_right _ _ _ _ (le_refl _)]
        simp
      rw [hx] at ha hb
      refine ⟨ha.ge, ha.le.trans hse, fun e1 h1 => ?_⟩
      rcases hb with heq | ⟨-, e0, hc, hl, hr⟩
      · rw [heq] at h1
        rcases hstp with h2 | h2 <;> rw [h2] at h1 <;> cases h1
      · rw [hc] at h1
        injection h1 with h1
        subst h1
        exact ⟨ha.le.trans hl, hr⟩
    · obtain ⟨ha, hb, hc⟩ := h3 i (by rw [List.length_append]; simp; omega) hi2
      exact ⟨ha, hb, hc⟩

theorem lastIdxWhereAux_spec {α : Type} (f : α → Bool) (d : α) :
    ∀ (l : List α) (i j : Nat), lastIdxWhereAux f l i = some j →
      i ≤ j ∧ j - i < l.length ∧ f (l.getD (j - i) d) = true
  | [], i, j, h => by simp [lastIdxWhereAux] at h
  | a :: rest, i, j, h => by
    rw [lastIdxWhereAux] at h
    rcases hr : lastIdxWhereAux f rest (i + 1) with - | j2
    · rw [hr] at h
      by_cases hf : f a = true
      · rw [if_pos hf] at h
        injection h with h
        subst h
        simpa using hf
      · rw [if_neg hf] at h
        cases h
    · rw [hr] at h
      injection h with h
      rw [← h]
      obtain ⟨ha, hb, hc⟩ := lastIdxWhereAux_spec f d rest (i + 1) j2 hr
      refine ⟨by omega, by simp; omega, ?_⟩
      rw [show j2 - i = (j2 - (i + 1)) + 1 from by omega, List.getD_cons_succ]
      exact hc

theorem lastIdxWhere_spec {α : Type} (f : α → Bool) (d : α) (l : List α) (j : Nat)
    (h : lastIdxWhere f l = some j) : j < l.length ∧ f (l.getD j d) = true := by
  obtain ⟨-, hb, hc⟩ := lastIdxWhereAux_spec f d l 0 j h
  rw [Nat.sub_zero] at hb hc
  exact ⟨hb, hc⟩

theorem Evolve_close (s e : Nat) (caps caps' : List Capture) (j : Nat)
    (hse : s ≤ e) (hj : j < caps.length)
    (hju : (caps.getD j capDef).stop = CapStop.unfinished)
    (h : Evolve s e (caps.set j ⟨(caps.getD j capDef).st, CapStop.closed s⟩) caps') :
    Evolve s e caps caps' := by
  obtain ⟨h1, h2, h3⟩ := h
  rw [List.length_set] at h1
  refine ⟨h1, fun i hi => ?_, fun i hi1 hi2 => h3 i (by rwa [List.length_set]) hi2⟩
  obtain ⟨ha, hb⟩ := h2 i (by rwa [List.length_set])
  by_cases hij : i = j
  · subst hij
    have hset : (caps.set i ⟨(caps.getD i capDef).st, CapStop.closed s⟩).getD i capDef =
        ⟨(caps.getD i capDef).st, CapStop.closed s⟩ := by
      rw [List.getD_eq_getElem _ _ (by rwa [List.length_set]), List.getElem_set_self]
    rw [hset] at ha hb
    refine ⟨ha, Or.inr ⟨hju, s, ?_, le_rfl, hse⟩⟩
    rcases hb with heq | ⟨hu, e0, hc, hl, hr⟩
    · rw [heq]
    · cases hu
  · have hset : (caps.set j ⟨(caps.getD j capDef).st, CapStop.closed s⟩).getD i capDef =
        caps.getD i capDef := by
      rcases Nat.lt_or_ge i caps.length with hi2 | hi2
      · rw [List.getD_eq_getElem _ _ (by rwa [List.length_set]),
          List.getElem_set_ne (fun hh => hij hh.symm),
          List.getD_eq_getElem _ _ hi2]
      · omega
    rw [hset] at ha hb
    exact ⟨ha, hb⟩

theorem singlematch_lt (patt subj : List Nat) (s p ep : Nat)
    (h : singlematch patt subj s p ep = true) : s < subj.length := by
  rw [singlematch] at h
  by_cases hs : s < subj.length
  · exact hs
  · rw [if_neg hs] at h
    cases h

theorem balanceScan_bounds (subj : List Nat) (b e : Nat) :
    ∀ (fuel s cont r : Nat), balanceScan subj b e fuel s cont = some r →
      s ≤ r ∧ r ≤ subj.length
  | 0, s, cont, r, h => by simp [balanceScan] at h
  | fuel + 1, s, cont, r, h => by
    rw [balanceScan] at h
    by_cases h1 : s + 1 < subj.length
    · rw [if_pos h1] at h
      by_cases h2 : (subj.getD (s + 1) 0 == e) = true
      · rw [if_pos h2] at h
        by_cases h3 : (cont == 1) = true
        · rw [if_pos h3] at h
          injection h with h
          omega
        · rw [if_neg h3] at h
          have := balanceScan_bounds subj b e fuel (s + 1) (cont - 1) r h
          omega
      · rw [if_neg h2] at h
        by_cases h4 : (subj.getD (s + 1) 0 == b) = true
        · rw [if_pos h4] at h
          have := balanceScan_bounds subj b e fuel (s + 1) (cont + 1) r h
          omega
        · rw [if_neg h4] at h
          have := balanceScan_bounds subj b e fuel (s + 1) cont r h
          omega
    · rw [if_neg h1] at h
      cases h

theorem matchbalance_bounds (patt subj : List Nat) (s p r : Nat)
    (h : matchbalance patt subj s p = .ok (some r)) : s ≤ r ∧ r ≤ subj.length := by
  rw [matchbalance] at h
  by_cases h1 : p + 1 < patt.length
  · rw [if_pos h1] at h
    by_cases h2 : (decide (s < subj.length) && (subj.getD s 0 == patt.getD p 0)) = true
    · rw [if_pos h2] at h
      injection h with h
      exact balanceScan_bounds subj (patt.getD p 0) (patt.getD (p + 1) 0)
        (subj.length + 1) s 1 r h
    · rw [if_neg h2] at h
      cases h
  · rw [if_neg h1] at h
    cases h

theorem matchCapture_bounds (subj : List Nat) (caps : List Capture) (s d r : Nat)
    (h : matchCapture subj caps s d = .ok (some r)) : s ≤ r ∧ r ≤ subj.length := by
  rw [matchCapture] at h
  by_cases h1 : (decide (49 ≤ d) && decide (d - 49 < caps.length)) = true
  · rw [if_pos h1] at h
    dsimp only at h
    rcases hst : (caps.getD (d - 49) ⟨0, CapStop.unfinished⟩).stop with - | - | e0
    · rw [hst] at h
      cases h
    · rw [hst] at h
      cases h
    · rw [hst] at h
      dsimp only at h
      by_cases h2 : (decide (s + (e0 - (caps.getD (d - 49) ⟨0, CapStop.unfinished⟩).st) ≤
            subj.length) &&
          (sliceLE subj (caps.getD (d - 49) ⟨0, CapStop.unfinished⟩).st e0 ==
            sliceLE subj s
              (s + (e0 - (caps.getD (d - 49) ⟨0, CapStop.unfinished⟩).st)))) = true
      · rw [if_pos h2] at h
        injection h with h
        injection h with h
        simp only [Bool.and_eq_true, decide_eq_true_eq] at h2
        omega
      · rw [if_neg h2] at h
        cases h
  · rw [if_neg h1] at h
    cases h

theorem runLen_le (patt subj : List Nat) (p ep : Nat) :
    ∀ (fuel s : Nat), s ≤ subj.length →
      s + runLen patt subj p ep fuel s ≤ subj.length
  | 0, s, hs => by rw [runLen]; omega
  | fuel + 1, s, hs => by
    rw [runLen]
    by_cases hm : singlematch patt subj s p ep = true
    · rw [if_pos hm]
      have h1 : s < subj.length := singlematch_lt patt subj s p ep hm
      have := runLen_le patt subj p ep fuel (s + 1) (by omega)
      omega
    · rw [if_neg hm]
      omega

theorem tryBack_some (cont : Nat → M (Option (Nat × List Capture))) (s : Nat) :
    ∀ (i : Nat) (r : Nat × List Capture), tryBack cont s i = .ok (some r) →
      ∃ s2, s ≤ s2 ∧ s2 ≤ s + i ∧ cont s2 = .ok (some r)
  | 0, r, h => ⟨s, le_rfl, by omega, h⟩
  | i + 1, r, h => by
    rw [tryBack] at h
    rcases hc : cont (s + i + 1) with e | o
    · rw [hc] at h
      cases h
    · rcases o with - | r2
      · rw [hc] at h
        obtain ⟨s2, h1, h2, h3⟩ := tryBack_some cont s i r h
        exact ⟨s2, h1, by omega, h3⟩
      · rw [hc] at h
        injection h with h
        injection h with h
        exact ⟨s + i + 1, by omega, by omega, by rw [hc, h]⟩

theorem tryBack_error (cont : Nat → M (Option (Nat × List Capture))) (s : Nat) :
    ∀ (i : Nat) (e : PatErr), tryBack cont s i = .error e →
      ∃ s2, s ≤ s2 ∧ s2 ≤ s + i ∧ cont s2 = .error e
  | 0, e, h => ⟨s, le_rfl, by omega, h⟩
  | i + 1, e, h => by
    rw [tryBack] at h
    rcases hc : cont (s + i + 1) with e2 | o
    · rw [hc] at h
      injection h with h
      exact ⟨s + i + 1, by omega, by omega, by rw [hc, h]⟩
    · rcases o with - | r2
      · rw [hc] at h
        obtain ⟨s2, h1, h2, h3⟩ := tryBack_error cont s i e h
        exact ⟨s2, h1, by omega, h3⟩
      · rw [hc] at h
        cases h

theorem minLoop_some (patt subj : List Nat) (p ep : Nat)
    (cont : Nat → M (Option (Nat × List Capture))) :
    ∀ (fuel s : Nat) (r : Nat × List Capture), s ≤ subj.length →
      minLoop patt subj p ep cont fuel s = .ok (some r) →
      ∃ s2, s ≤ s2 ∧ s2 ≤ subj.length ∧ cont s2 = .ok (some r)
  | 0, s, r, hs, h => by rw [minLoop] at h; cases h
  | fuel + 1, s, r, hs, h => by
    rw [minLoop] at h
    rcases hc : cont s with e | o
    · rw [hc] at h
      cases h
    · rcases o with - | r2
      · rw [hc] at h
        by_cases hm : singlematch patt subj s p ep = true
        · rw [if_pos hm] at h
          have h1 : s < subj.length := singlematch_lt patt subj s p ep hm
          obtain ⟨s2, h2, h3, h4⟩ := minLoop_some patt subj p ep cont fuel (s + 1) r
            (by omega) h
          exact ⟨s2, by omega, h3, h4⟩
        · rw [if_neg hm] at h
          cases h
      · rw [hc] at h
        injection h with h
        injection h with h
        exact ⟨s, le_rfl, hs, by rw [hc, h]⟩

theorem minLoop_error (patt subj : List Nat) (p ep : Nat)
    (cont : Nat → M (Option (Nat × List Capture))) :
    ∀ (fuel s : Nat) (e : PatErr),
      minLoop patt subj p ep cont fuel s = .error e →
      ∃ s2, s ≤ s2 ∧ cont s2 = .error e
  | 0, s, e, h => by rw [minLoop] at h; cases h
  | fuel + 1, s, e, h => by
    rw [minLoop] at h
    rcases hc : cont s with e2 | o
    · rw [hc] at h
      injection h with h
      exact ⟨s, le_rfl, by rw [hc, h]⟩
    · rcases o with - | r2
      · rw [hc] at h
        by_cases hm : singlematch patt subj s p ep = true
        · rw [if_pos hm] at h
          obtain ⟨s2, h2, h3⟩ := minLoop_error patt subj p ep cont fuel (s + 1) e h
          exact ⟨s2, by omega, h3⟩
        · rw [if_neg hm] at h
          cases h
      · rw [hc] at h
        cases h

theorem domatch_evolve (patt subj : List Nat) :
    ∀ (fuel s p : Nat) (caps : List Capture) (e : Nat) (caps' : List Capture),
      s ≤ subj.length →
      domatch patt subj fuel s p caps = .ok (some (e, caps')) →
      s ≤ e ∧ e ≤ subj.length ∧ Evolve s e caps caps' := by
  intro fuel
  induction fuel with
  | zero =>
    intro s p caps e caps' _ h
    rw [domatch] at h
    cases h
  | succ fuel ih =>
    intro s p caps e caps' hs h
    rw [domatch.eq_2] at h
    by_cases hp : p < patt.length
    case neg =>
      rw [if_neg hp] at h
      simp only [Except.ok.injEq, Option.some.injEq, Prod.mk.injEq] at h
      obtain ⟨he, hcap⟩ := h
      subst he
      subst hcap
      exact ⟨le_rfl, hs, Evolve_refl _ _ _⟩
    case pos =>
      rw [if_pos hp] at h
      dsimp only at h
      by_cases h40 : (patt.getD p 0 == 40) = true
      · rw [if_pos h40] at h
        by_cases hmax : MAXCAPTURES ≤ caps.length
        · rw [if_pos hmax] at h
          cases h
        · rw [if_neg hmax] at h
          by_cases h41 : (patt.getD (p + 1) 0 == 41) = true
          · rw [if_pos h41] at h
            obtain ⟨h1, h2, h3⟩ := ih s (p + 2) (caps ++ [⟨s, .position⟩]) e caps' hs h
            exact ⟨h1, h2, Evolve_push s e caps caps' .position h1 (Or.inr rfl) h3⟩
          · rw [if_neg h41] at h
            obtain ⟨h1, h2, h3⟩ := ih s (p + 1) (caps ++ [⟨s, .unfinished⟩]) e caps' hs h
            exact ⟨h1, h2, Evolve_push s e caps caps' .unfinished h1 (Or.inl rfl) h3⟩
      · rw [if_neg h40] at h
        by_cases h41c : (patt.getD p 0 == 41) = true
        · rw [if_pos h41c] at h
          rcases hj : lastIdxWhere (fun c => c.stop == CapStop.unfinished) caps with - | j
          · rw [hj] at h
            cases h
          · rw [hj] at h
            obtain ⟨hjlen, hjf⟩ := lastIdxWhere_spec _ capDef caps j hj
            have hju : (caps.getD j capDef).stop = CapStop.unfinished := by
              simpa using hjf
            obtain ⟨h1, h2, h3⟩ := ih s (p + 1) _ e caps' hs h
            exact ⟨h1, h2, Evolve_close s e caps caps' j h1 hjlen hju h3⟩
        · rw [if_neg h41c] at h
          by_cases h36 : (patt.getD p 0 == 36 && p + 1 == patt.length) = true
          · rw [if_pos h36] at h
            by_cases hsl : (s == subj.length) = true
            · rw [if_pos hsl] at h
              simp only [Except.ok.injEq, Option.some.injEq, Prod.mk.injEq] at h
              obtain ⟨he, hcap⟩ := h
              subst he
              subst hcap
              exact ⟨le_rfl, hs, Evolve_refl _ _ _⟩
            · rw [if_neg hsl] at h
              cases h
          · rw [if_neg h36] at h
            by_cases hb : (patt.getD p 0 == 37 && patt.getD (p + 1) 0 == 98) = true
            · rw [if_pos hb] at h
              rcases hmb : matchbalance patt subj s (p + 2) with e2 | o
              · rw [hmb] at h
                cases h
              · rcases o with - | s2
                · rw [hmb] at h
                  cases h
                · rw [hmb] at h
                  obtain ⟨hs2a, hs2b⟩ := matchbalance_bounds patt subj s (p + 2) s2 hmb
                  obtain ⟨h1, h2, h3⟩ := ih s2 (p + 4) caps e caps' hs2b h
                  exact ⟨by omega, h2, Evolve_mono s s2 e caps caps' hs2a h3⟩
            · rw [if_neg hb] at h
              by_cases hf : (patt.getD p 0 == 37 && patt.getD (p + 1) 0 == 102) = true
              · rw [if_pos hf] at h
                by_cases hf91 : (patt.getD (p + 2) 0 == 91) = true
                · rw [if_pos hf91] at h
                  rcases hce : classEnd patt (p + 2) with e2 | ep
                  · rw [hce] at h
                    cases h
                  · rw [hce] at h
                    dsimp only at h
                    split at h
                    · split at h
                      · exact ih s ep caps e caps' hs h
                      · cases h
                    · split at h
                      · exact ih s ep caps e caps' hs h
                      · cases h
                · rw [if_neg hf91] at h
                  cases h
              · rw [if_neg hf] at h
                by_cases hbr : (patt.getD p 0 == 37 && isdigitB (patt.getD (p + 1) 0)) = true
                · rw [if_pos hbr] at h
                  rcases hmc : matchCapture subj caps s (patt.getD (p + 1) 0) with e2 | o
                  · rw [hmc] at h
                    cases h
                  · rcases o with - | s2
                    · rw [hmc] at h
                      cases h
                    · rw [hmc] at h
                      obtain ⟨hs2a, hs2b⟩ := matchCapture_bounds subj caps s _ s2 hmc
                      obtain ⟨h1, h2, h3⟩ := ih s2 (p + 2) caps e caps' hs2b h
                      exact ⟨by omega, h2, Evolve_mono s s2 e caps caps' hs2a h3⟩
                · rw [if_neg hbr] at h
                  rcases hce : classEnd patt p with e2 | ep
                  · rw [hce] at h
                    cases h
                  · rw [hce] at h
                    dsimp only at h
                    by_cases h63 : (patt.getD ep 0 == 63) = true
                    · rw [if_pos h63] at h
                      by_cases hm : singlematch patt subj s p ep = true
                      · rw [if_pos hm] at h
                        have hs1 : s + 1 ≤ subj.length := singlematch_lt patt subj s p ep hm
                        rcases hd : domatch patt subj fuel (s + 1) (ep + 1) caps with e2 | o
                        · rw [hd] at h
                          cases h
                        · rcases o with - | r
                          · rw [hd] at h
                            exact ih s (ep + 1) caps e caps' hs h
                          · rw [hd] at h
                            simp only [Except.ok.injEq, Option.some.injEq] at h
                            subst h
                            obtain ⟨h1, h2, h3⟩ := ih (s + 1) (ep + 1) caps e caps' hs1 hd
                            exact ⟨by omega, h2,
                              Evolve_mono s (s + 1) e caps caps' (by omega) h3⟩
                      · rw [if_neg hm] at h
                        exact ih s (ep + 1) caps e caps' hs h
                    · rw [if_neg h63] at h
                      by_cases h43 : (patt.getD ep 0 == 43) = true
                      · rw [if_pos h43] at h
                        by_cases hm : singlematch patt subj s p ep = true
                        · rw [if_pos hm] at h
                          have hslt : s < subj.length := singlematch_lt patt subj s p ep hm
                          obtain ⟨s2, hs2a, hs2b, hcont⟩ :=
                            tryBack_some _ (s + 1) _ (e, caps') h
                          have hrl := runLen_le patt subj p ep (subj.length + 1) (s + 1)
                            (by omega)
                          obtain ⟨h1, h2, h3⟩ := ih s2 (ep + 1) caps e caps' (by omega) hcont
                          exact ⟨by omega, h2, Evolve_mono s s2 e caps caps' (by omega) h3⟩
                        · rw [if_neg hm] at h
                          cases h
                      · rw [if_neg h43] at h
                        by_cases h42 : (patt.getD ep 0 == 42) = true
                        · rw [if_pos h42] at h
                          obtain ⟨s2, hs2a, hs2b, hcont⟩ := tryBack_some _ s _ (e, caps') h
                          have hrl := runLen_le patt subj p ep (subj.length + 1) s hs
                          obtain ⟨h1, h2, h3⟩ := ih s2 (ep + 1) caps e caps' (by omega) hcont
                          exact ⟨by omega, h2, Evolve_mono s s2 e caps caps' hs2a h3⟩
                        · rw [if_neg h42] at h
                          by_cases h45 : (patt.getD ep 0 == 45) = true
                          · rw [if_pos h45] at h
                            obtain ⟨s2, hs2a, hs2b, hcont⟩ :=
                              minLoop_some patt subj p ep _ (subj.length + 1) s
                                (e, caps') hs h
                            obtain ⟨h1, h2, h3⟩ := ih s2 (ep + 1) caps e caps' hs2b hcont
                            exact ⟨by omega, h2, Evolve_mono s s2 e caps caps' hs2a h3⟩
                          · rw [if_neg h45] at h
                            by_cases hm : singlematch patt subj s p ep = true
                            · rw [if_pos hm] at h
                              have hs1 : s + 1 ≤ subj.length :=
                                singlematch_lt patt subj s p ep hm
                              obtain ⟨h1, h2, h3⟩ := ih (s + 1) ep caps e caps' hs1 h
                              exact ⟨by omega, h2,
                                Evolve_mono s (s + 1) e caps caps' (by omega) h3⟩
                            · rw [if_neg hm] at h
                              cases h

theorem matchLoop_evolve (patt subj : List Nat) (p0 : Nat) (anchor : Bool) :
    ∀ (fuel s1 st e : Nat) (caps : List Capture), s1 ≤ subj.length →
      matchLoop patt subj p0 anchor fuel s1 = .ok (some (st, e, caps)) →
      s1 ≤ st ∧ st ≤ e ∧ e ≤ subj.length ∧ Evolve st e [] caps
  | 0, s1, st, e, caps, hs1, h => by
    rw [matchLoop] at h
    cases h
  | fuel + 1, s1, st, e, caps, hs1, h => by
    rw [matchLoop] at h
    rcases hd : domatch patt subj (patt.length + 1) s1 p0 [] with e2 | o
    · rw [hd] at h
      cases h
    · rcases o with - | r
      · rw [hd] at h
        by_cases hc : (decide (s1 < subj.length) && !anchor) = true
        · rw [if_pos hc] at h
          simp only [Bool.and_eq_true, decide_eq_true_eq] at hc
          obtain ⟨h1, h2, h3, h4⟩ :=
            matchLoop_evolve patt subj p0 anchor fuel (s1 + 1) st e caps (by omega) h
          exact ⟨by omega, h2, h3, h4⟩
        · rw [if_neg hc] at h
          cases h
      · rw [hd] at h
        rcases r with ⟨e0, caps0⟩
        simp only [Except.ok.injEq, Option.some.injEq, Prod.mk.injEq] at h
        obtain ⟨hst, he, hcaps⟩ := h
        subst hst
        subst he
        subst hcaps
        obtain ⟨h1, h2, h3⟩ :=
          domatch_evolve patt subj (patt.length + 1) s1 p0 [] e0 caps0 hs1 hd
        exact ⟨le_rfl, h1, h2, h3⟩

theorem mapM_ok_mem {ε α β : Type} (f : α → Except ε β) :
    ∀ (l : List α) (ys : List β), l.mapM f = .ok ys →
      ∀ y ∈ ys, ∃ x ∈ l, f x = .ok y
  | [], ys, h, y, hy => by
    simp only [List.mapM_nil, pure, Except.pure, Except.ok.injEq] at h
    subst h
    cases hy
  | a :: l, ys, h, y, hy => by
    rw [List.mapM_cons] at h
    rcases hfa : f a with e | b
    · rw [hfa] at h
      simp only [bind, Except.bind] at h
      cases h
    · rw [hfa] at h
      simp only [bind, Except.bind] at h
      rcases hml : l.mapM f with e | bs
      · rw [hml] at h
        cases h
      · rw [hml] at h
        simp only [pure, Except.pure, Except.ok.injEq] at h
        subst h
        rcases List.mem_cons.mp hy with hy1 | hy2
        · subst hy1
          exact ⟨a, List.mem_cons_self a l, hfa⟩
        · obtain ⟨x, hx, hfx⟩ := mapM_ok_mem f l bs hml y hy2
          exact ⟨x, List.mem_cons_of_mem a hx, hfx⟩

/-- **C2** (amended): after a successful `matches_bytes` call the stored
whole-match span satisfies `0 ≤ start ≤ end ≤ |subject|`, and every stored
user-capture span starts inside the whole-match span and, when it is not a
position capture (sentinel end `-1`), also ends inside it with
`start ≤ end`.  (The original claim's unconditional
`span[i].start ≤ span[i].end` fails for position captures — see the
counterexample.) -/
theorem c2_spans_contained (h0 h1 : LuaPatternH) (subj : List Nat)
    (hm : matches_bytes h0 subj = .ok (h1, true)) :
    ∃ a b rest, h1.matchesBuf.take h1.n_match = (a, b) :: rest ∧
      0 ≤ a ∧ a ≤ b ∧ b ≤ (subj.length : Int) ∧
      ∀ sp ∈ rest, a ≤ sp.1 ∧ sp.1 ≤ b ∧
        (sp.2 ≠ -1 → sp.1 ≤ sp.2 ∧ sp.2 ≤ b) := by
  rw [matches_bytes] at hm
  rcases hsm : str_match h0.patt subj with e | o
  · rw [hsm] at hm
    cases hm
  · rcases o with - | spans
    · rw [hsm] at hm
      simp only [Except.ok.injEq, Prod.mk.injEq] at hm
      exact absurd hm.2 (by simp)
    · rw [hsm] at hm
      simp only [Except.ok.injEq, Prod.mk.injEq] at hm
      obtain ⟨hh1, -⟩ := hm
      subst hh1
      rw [str_match] at hsm
      rcases hml : matchLoop h0.patt subj (if (h0.patt.getD 0 0 == 94) = true then 1 else 0)
          (h0.patt.getD 0 0 == 94) (subj.length + 1) 0 with e | o2
      · rw [hml] at hsm
        cases hsm
      · rcases o2 with - | r
        · rw [hml] at hsm
          cases hsm
        · rcases r with ⟨st, en, caps⟩
          rw [hml] at hsm
          dsimp only at hsm
          rcases hmm : caps.mapM pushCapture with e | user
          · rw [hmm] at hsm
            cases hsm
          · rw [hmm] at hsm
            simp only [Except.ok.injEq, Option.some.injEq] at hsm
            obtain ⟨-, h2, h3, hev⟩ :=
              matchLoop_evolve h0.patt subj _ _ (subj.length + 1) 0 st en caps
                (by omega) hml
            obtain ⟨-, -, hnew⟩ := hev
            refine ⟨(st : Int), (en : Int), user, ?_, by omega, by omega, by omega,
              fun sp hsp => ?_⟩
            · dsimp only
              rw [← hsm, List.take_left]
            · obtain ⟨cap, hcmem, hpc⟩ := mapM_ok_mem pushCapture caps user hmm sp hsp
              obtain ⟨i, hi, hcap⟩ := List.mem_iff_getElem.mp hcmem
              have hgi : caps.getD i capDef = cap := by
                rw [List.getD_eq_getElem _ _ hi, hcap]
              obtain ⟨hn1, hn2, hn3⟩ := hnew i (by simp) hi
              rw [hgi] at hn1 hn2 hn3
              rw [pushCapture] at hpc
              rcases hstop : cap.stop with - | - | e0
              · rw [hstop] at hpc
                cases hpc
              · rw [hstop] at hpc
                simp only [Except.ok.injEq] at hpc
                subst hpc
                refine ⟨by omega, by omega, fun hne => absurd rfl hne⟩
              · rw [hstop] at hpc
                simp only [Except.ok.injEq] at hpc
                subst hpc
                obtain ⟨he1, he2⟩ := hn3 e0 hstop
                exact ⟨by omega, by omega, fun hne => ⟨by omega, by omega⟩⟩

/-- Witness for **C2**: pattern `"(%a+) one"` matched against the subject
`" hello one two"` (whole match span `(1, 10)`, capture span `(1, 6)`). -/
theorem c2_spans_contained_witness :
    matches_bytes (from_bytes (strBytes "(%a+) one")) (strBytes " hello one two") =
      .ok (⟨strBytes "(%a+) one",
        [((1 : Int), (10 : Int)), ((1 : Int), (6 : Int))] ++
          List.replicate 30 ((0 : Int), (0 : Int)), 2⟩, true) ∧
    (∃ a b rest,
      (⟨strBytes "(%a+) one",
        [((1 : Int), (10 : Int)), ((1 : Int), (6 : Int))] ++
          List.replicate 30 ((0 : Int), (0 : Int)), 2⟩ : LuaPatternH).matchesBuf.take
        (⟨strBytes "(%a+) one",
          [((1 : Int), (10 : Int)), ((1 : Int), (6 : Int))] ++
            List.replicate 30 ((0 : Int), (0 : Int)), 2⟩ : LuaPatternH).n_match =
          (a, b) :: rest ∧
      0 ≤ a ∧ a ≤ b ∧ b ≤ ((strBytes " hello one two").length : Int) ∧
      ∀ sp ∈ rest, a ≤ sp.1 ∧ sp.1 ≤ b ∧
        (sp.2 ≠ -1 → sp.1 ≤ sp.2 ∧ sp.2 ≤ b)) :=
  ⟨by decide, c2_spans_contained (from_bytes (strBytes "(%a+) one")) _ _ (by decide)⟩

theorem lastIdxWhereAux_map {α β : Type} (g : α → β) (p : β → Bool) (q : α → Bool)
    (hpq : ∀ x, p (g x) = q x) :
    ∀ (l : List α) (i : Nat), lastIdxWhereAux p (l.map g) i = lastIdxWhereAux q l i
  | [], _ => rfl
  | a :: l, i => by
    rw [List.map_cons, lastIdxWhereAux, lastIdxWhereAux,
      lastIdxWhereAux_map g p q hpq l (i + 1), hpq a]

theorem statusOf_map_set (caps : List Capture) (j : Nat) (v : Capture) :
    (caps.set j v).map statusOf = (caps.map statusOf).set j (statusOf v) :=
  List.map_set

theorem getD_map_statusOf (caps : List Capture) (i : Nat) (h : i < caps.length) :
    (caps.map statusOf).getD i CapSt.closed = statusOf (caps.getD i capDef) := by
  rw [List.getD_eq_getElem _ _ (by simpa using h), List.getElem_map,
    List.getD_eq_getElem _ _ h]

theorem minLoop_some_ex (patt subj : List Nat) (p ep : Nat)
    (cont : Nat → M (Option (Nat × List Capture))) :
    ∀ (fuel s : Nat) (r : Nat × List Capture),
      minLoop patt subj p ep cont fuel s = .ok (some r) →
      ∃ s2, cont s2 = .ok (some r)
  | 0, s, r, h => by
    rw [minLoop] at h
    cases h
  | fuel + 1, s, r, h => by
    rw [minLoop] at h
    rcases hc : cont s with e | o
    · rw [hc] at h
      cases h
    · rcases o with - | r2
      · rw [hc] at h
        by_cases hm : singlematch patt subj s p ep = true
        · rw [if_pos hm] at h
          exact minLoop_some_ex patt subj p ep cont fuel (s + 1) r h
        · rw [if_neg hm] at h
          cases h
      · rw [hc] at h
        injection h with h
        injection h with h
        exact ⟨s, by rw [hc, h]⟩

theorem mapM_pushCapture_error :
    ∀ (caps : List Capture) (e : PatErr), caps.mapM pushCapture = .error e →
      e = PatErr.unfinishedCap ∧ ∃ c ∈ caps, c.stop = CapStop.unfinished
  | [], e, h => Except.noConfusion h
  | a :: l, e, h => by
    rw [List.mapM_cons] at h
    rcases hfa : pushCapture a with e2 | b
    · rw [hfa] at h
      simp only [bind, Except.bind] at h
      injection h with h
      subst h
      rw [pushCapture] at hfa
      rcases hstop : a.stop with - | - | e0
      · rw [hstop] at hfa
        injection hfa with hfa
        exact ⟨hfa.symm, a, List.mem_cons_self a l, hstop⟩
      · rw [hstop] at hfa
        cases hfa
      · rw [hstop] at hfa
        cases hfa
    · rw [hfa] at h
      simp only [bind, Except.bind] at h
      rcases hml : l.mapM pushCapture with e2 | bs
      · rw [hml] at h
        injection h with h
        subst h
        obtain ⟨h1, c, hc, hsu⟩ := mapM_pushCapture_error l e2 hml
        exact ⟨h1, c, List.mem_cons_of_mem a hc, hsu⟩
      · rw [hml] at h
        simp [pure, Except.pure] at h

theorem statusOf_beq_unfinished (x : Capture) :
    ((statusOf x) == CapSt.unfinished) = (x.stop == CapStop.unfinished) := by
  rcases hx : x.stop <;> simp [statusOf, hx]

theorem checkFrom_agrees (patt subj : List Nat) :
    ∀ (fuel : Nat), ∀ (s p : Nat) (caps : List Capture),
      Agrees (checkFrom patt fuel p (caps.map statusOf))
        (domatch patt subj fuel s p caps) := by
  intro fuel
  induction fuel with
  | zero =>
    intro s p caps
    rw [domatch, checkFrom]
    trivial
  | succ fuel ih =>
    intro s p caps
    rw [domatch.eq_2, checkFrom.eq_2]
    simp only [List.length_map]
    by_cases hp : p < patt.length
    case neg =>
      rw [if_neg hp, if_neg hp]
      rfl
    case pos =>
      rw [if_pos hp, if_pos hp]
      rw [show (⟨0, CapStop.unfinished⟩ : Capture) = capDef from rfl]
      by_cases h40 : (patt.getD p 0 == 40) = true
      · rw [if_pos h40, if_pos h40]
        by_cases hmax : MAXCAPTURES ≤ caps.length
        · rw [if_pos hmax, if_pos hmax]
          rfl
        · rw [if_neg hmax, if_neg hmax]
          by_cases h41 : (patt.getD (p + 1) 0 == 41) = true
          · rw [if_pos h41, if_pos h41,
              show (caps.map statusOf) ++ [CapSt.position] =
                (caps ++ [(⟨s, CapStop.position⟩ : Capture)]).map statusOf from by
                  simp [statusOf]]
            exact ih s (p + 2) (caps ++ [(⟨s, CapStop.position⟩ : Capture)])
          · rw [if_neg h41, if_neg h41,
              show (caps.map statusOf) ++ [CapSt.unfinished] =
                (caps ++ [(⟨s, CapStop.unfinished⟩ : Capture)]).map statusOf from by
                  simp [statusOf]]
            exact ih s (p + 1) (caps ++ [(⟨s, CapStop.unfinished⟩ : Capture)])
      · rw [if_neg h40, if_neg h40]
        by_cases h41c : (patt.getD p 0 == 41) = true
        · rw [if_pos h41c, if_pos h41c,
            show lastIdxWhere (fun c => c == CapSt.unfinished) (caps.map statusOf) =
              lastIdxWhere (fun c => c.stop == CapStop.unfinished) caps from
              lastIdxWhereAux_map statusOf _ _ statusOf_beq_unfinished caps 0]
          rcases hj : lastIdxWhere (fun c => c.stop == CapStop.unfinished) caps with - | j
          · rw [hj]
            rfl
          · rw [hj]
            dsimp only
            rw [show (caps.map statusOf).set j CapSt.closed =
              (caps.set j ⟨(caps.getD j capDef).st, CapStop.closed s⟩).map statusOf from by
                rw [statusOf_map_set]
                rfl]
            exact ih s (p + 1) (caps.set j ⟨(caps.getD j capDef).st, CapStop.closed s⟩)
        · rw [if_neg h41c, if_neg h41c]
          by_cases h36 : (patt.getD p 0 == 36 && p + 1 == patt.length) = true
          · rw [if_pos h36, if_pos h36]
            by_cases hsl : (s == subj.length) = true
            · rw [if_pos hsl]
              rfl
            · rw [if_neg hsl]
              trivial
          · rw [if_neg h36, if_neg h36]
            by_cases hb : (patt.getD p 0 == 37 && patt.getD (p + 1) 0 == 98) = true
            · rw [if_pos hb, if_pos hb]
              by_cases hlen : p + 3 < patt.length
              · rw [if_pos hlen]
                rcases hmb : matchbalance patt subj s (p + 2) with e2 | o
                · exfalso
                  rw [matchbalance, if_pos (show p + 2 + 1 < patt.length from by omega)]
                    at hmb
                  by_cases hc2 : (decide (s < subj.length) &&
                      (subj.getD s 0 == patt.getD (p + 2) 0)) = true
                  · rw [if_pos hc2] at hmb
                    cases hmb
                  · rw [if_neg hc2] at hmb
                    cases hmb
                · rcases o with - | s2
                  · trivial
                  · exact ih s2 (p + 4) caps
              · rw [if_neg hlen]
                rw [show matchbalance patt subj s (p + 2) = .error .missingArgsB from by
                  rw [matchbalance, if_neg (show ¬(p + 2 + 1 < patt.length) from by omega)]]
                rfl
            · rw [if_neg hb, if_neg hb]
              by_cases hf : (patt.getD p 0 == 37 && patt.getD (p + 1) 0 == 102) = true
              · rw [if_pos hf, if_pos hf]
                by_cases hf91 : (patt.getD (p + 2) 0 == 91) = true
                · rw [if_pos hf91, if_pos hf91]
                  rcases hce : classEnd patt (p + 2) with e2 | ep
                  · rfl
                  · dsimp only
                    by_cases hbc : ((!matchBracketClass patt
                        (if (s == 0) = true then 0 else subj.getD (s - 1) 0) (p + 2)
                          (ep - 1)) &&
                        matchBracketClass patt (subj.getD s 0) (p + 2) (ep - 1)) = true
                    · rw [if_pos hbc]
                      exact ih s ep caps
                    · rw [if_neg hbc]
                      trivial
                · rw [if_neg hf91, if_neg hf91]
                  rfl
              · rw [if_neg hf, if_neg hf]
                by_cases hbr : (patt.getD p 0 == 37 && isdigitB (patt.getD (p + 1) 0)) = true
                · rw [if_pos hbr, if_pos hbr]
                  rw [matchCapture]
                  by_cases hd49 : (decide (49 ≤ patt.getD (p + 1) 0) &&
                      decide (patt.getD (p + 1) 0 - 49 < caps.length)) = true
                  · rw [if_pos hd49, if_pos hd49]
                    have hdlt : patt.getD (p + 1) 0 - 49 < caps.length := by
                      simp only [Bool.and_eq_true, decide_eq_true_eq] at hd49
                      exact hd49.2
                    dsimp only
                    rw [show (⟨0, CapStop.unfinished⟩ : Capture) = capDef from rfl,
                      getD_map_statusOf caps _ hdlt]
                    rcases hstop : (caps.getD (patt.getD (p + 1) 0 - 49) capDef).stop
                      with - | - | e0
                    · rw [
                        if_pos (show (statusOf (caps.getD (patt.getD (p + 1) 0 - 49) capDef)
                            == CapSt.unfinished) = true from by
                          rw [statusOf_beq_unfinished, hstop]
                          rfl)]
                      rfl
                    · trivial
                    · rw [
                        if_neg (show ¬((statusOf (caps.getD (patt.getD (p + 1) 0 - 49) capDef)
                            == CapSt.unfinished) = true) from by
                          rw [statusOf_beq_unfinished, hstop]
                          simp)]
                      dsimp only
                      by_cases hsc : (decide (s + (e0 -
                          (caps.getD (patt.getD (p + 1) 0 - 49) capDef).st) ≤ subj.length) &&
                          (sliceLE subj (caps.getD (patt.getD (p + 1) 0 - 49) capDef).st e0 ==
                            sliceLE subj s (s + (e0 -
                              (caps.getD (patt.getD (p + 1) 0 - 49) capDef).st)))) = true
                      · rw [if_pos hsc]
                        exact ih _ (p + 2) caps
                      · rw [if_neg hsc]
                        trivial
                  · rw [if_neg hd49, if_neg hd49]
                    rfl
                · rw [if_neg hbr, if_neg hbr]
                  rcases hce : classEnd patt p with e2 | ep
                  · rfl
                  · dsimp only
                    by_cases h63 : (patt.getD ep 0 == 63) = true
                    · rw [if_pos h63, if_pos (show (((patt.getD ep 0 == 63 || patt.getD ep 0 == 43) || patt.getD ep 0 == 42) ||
                          patt.getD ep 0 == 45) = true from by
                        simp only [Bool.or_eq_true]
                        exact Or.inl (Or.inl (Or.inl h63)))]
                      by_cases hm : singlematch patt subj s p ep = true
                      · rw [if_pos hm]
                        rcases hd : domatch patt subj fuel (s + 1) (ep + 1) caps with e2 | o
                        · have h5 := ih (s + 1) (ep + 1) caps
                          rw [hd] at h5
                          exact h5
                        · rcases o with - | r
                          · exact ih s (ep + 1) caps
                          · have h5 := ih (s + 1) (ep + 1) caps
                            rw [hd] at h5
                            exact h5
                      · rw [if_neg hm]
                        exact ih s (ep + 1) caps
                    · by_cases h43 : (patt.getD ep 0 == 43) = true
                      · rw [if_neg h63, if_pos h43, if_pos (show (((patt.getD ep 0 == 63 || patt.getD ep 0 == 43) || patt.getD ep 0 == 42) ||
                            patt.getD ep 0 == 45) = true from by
                          simp only [Bool.or_eq_true]
                          exact Or.inl (Or.inl (Or.inr h43)))]
                        by_cases hm : singlematch patt subj s p ep = true
                        · rw [if_pos hm]
                          rcases hres : tryBack (fun s2 => domatch patt subj fuel s2 (ep + 1)
                              caps) (s + 1)
                              (runLen patt subj p ep (subj.length + 1) (s + 1)) with e2 | o
                          · obtain ⟨s2, -, -, hcont⟩ := tryBack_error _ (s + 1) _ e2 hres
                            have h5 := ih s2 (ep + 1) caps
                            rw [show domatch patt subj fuel s2 (ep + 1) caps =
                              .error e2 from hcont] at h5
                            exact h5
                          · rcases o with - | r
                            · trivial
                            · obtain ⟨s2, -, -, hcont⟩ := tryBack_some _ (s + 1) _ r hres
                              have h5 := ih s2 (ep + 1) caps
                              rw [show domatch patt subj fuel s2 (ep + 1) caps =
                                .ok (some r) from hcont] at h5
                              exact h5
                        · rw [if_neg hm]
                          trivial
                      · by_cases h42 : (patt.getD ep 0 == 42) = true
                        · rw [if_neg h63, if_neg h43, if_pos h42,
                            if_pos (show (((patt.getD ep 0 == 63 || patt.getD ep 0 == 43) || patt.getD ep 0 == 42) ||
                                patt.getD ep 0 == 45) = true from by
                            simp only [Bool.or_eq_true]
                            exact Or.inl (Or.inr h42))]
                          rcases hres : tryBack (fun s2 => domatch patt subj fuel s2 (ep + 1)
                              caps) s (runLen patt subj p ep (subj.length + 1) s) with e2 | o
                          · obtain ⟨s2, -, -, hcont⟩ := tryBack_error _ s _ e2 hres
                            have h5 := ih s2 (ep + 1) caps
                            rw [show domatch patt subj fuel s2 (ep + 1) caps =
                              .error e2 from hcont] at h5
                            exact h5
                          · rcases o with - | r
                            · trivial
                            · obtain ⟨s2, -, -, hcont⟩ := tryBack_some _ s _ r hres
                              have h5 := ih s2 (ep + 1) caps
                              rw [show domatch patt subj fuel s2 (ep + 1) caps =
                                .ok (some r) from hcont] at h5
                              exact h5
                        · by_cases h45 : (patt.getD ep 0 == 45) = true
                          · rw [if_neg h63, if_neg h43, if_neg h42, if_pos h45,
                              if_pos (show (((patt.getD ep 0 == 63 || patt.getD ep 0 == 43) || patt.getD ep 0 == 42) ||
                                  patt.getD ep 0 == 45) = true from by
                              simp only [Bool.or_eq_true]
                              exact Or.inr h45)]
                            rcases hres : minLoop patt subj p ep
                                (fun s2 => domatch patt subj fuel s2 (ep + 1) caps)
                                (subj.length + 1) s with e2 | o
                            · obtain ⟨s2, -, hcont⟩ := minLoop_error patt subj p ep _
                                (subj.length + 1) s e2 hres
                              have h5 := ih s2 (ep + 1) caps
                              rw [show domatch patt subj fuel s2 (ep + 1) caps =
                                .error e2 from hcont] at h5
                              exact h5
                            · rcases o with - | r
                              · trivial
                              · obtain ⟨s2, hcont⟩ := minLoop_some_ex patt subj p ep _
                                  (subj.length + 1) s r hres
                                have h5 := ih s2 (ep + 1) caps
                                rw [show domatch patt subj fuel s2 (ep + 1) caps =
                                  .ok (some r) from hcont] at h5
                                exact h5
                          · rw [if_neg h63, if_neg h43, if_neg h42, if_neg h45,
                              if_neg (show ¬((((patt.getD ep 0 == 63 || patt.getD ep 0 == 43) || patt.getD ep 0 == 42) ||
                                  patt.getD ep 0 == 45) = true) from by
                                simp only [Bool.or_eq_true]
                                rintro (((h | h) | h) | h)
                                · exact h63 h
                                · exact h43 h
                                · exact h42 h
                                · exact h45 h)]
                            by_cases hm : singlematch patt subj s p ep = true
                            · rw [if_pos hm]
                              exact ih (s + 1) ep caps
                            · rw [if_neg hm]
                              trivial

/-- **C3** (amended): `try_new` never reports a spurious error — every typed
pattern error it returns is a genuine §7 structural error, reproduced by the
static checker with the same error value.  (The original claim's "if and
only if" fails in the other direction: the engine's empty-subject run can
miss a malformed suffix it never reaches — see the counterexample.) -/
theorem c3_try_new_errors_are_structural (q : List Nat) (e : PatErr)
    (h : try_new q = .error e) : str_check q = .error e := by
  rw [try_new] at h
  rcases hsm : str_match q [] with e2 | o
  · rw [hsm] at h
    injection h with h
    subst h
    rw [str_match] at hsm
    rcases hml : matchLoop q [] (if (q.getD 0 0 == 94) = true then 1 else 0)
        (q.getD 0 0 == 94) (List.length ([] : List Nat) + 1) 0 with e3 | o2
    · rw [hml] at hsm
      injection hsm with hsm
      rw [matchLoop] at hml
      rcases hd : domatch q [] (q.length + 1) 0
          (if (q.getD 0 0 == 94) = true then 1 else 0) [] with e4 | o3
      · rw [hd] at hml
        injection hml with hml
        have hA : Agrees
            (checkFrom q (q.length + 1) (if (q.getD 0 0 == 94) = true then 1 else 0)
              (List.map statusOf []))
            (domatch q [] (q.length + 1) 0
              (if (q.getD 0 0 == 94) = true then 1 else 0) []) :=
          checkFrom_agrees q [] (q.length + 1) 0
            (if (q.getD 0 0 == 94) = true then 1 else 0) []
        rw [hd] at hA
        have hA2 : checkFrom q (q.length + 1)
            (if (q.getD 0 0 == 94) = true then 1 else 0) [] = .error e4 := hA
        rw [str_check, hA2, hml, hsm]
      · rcases o3 with - | r
        · rw [hd] at hml
          rw [if_neg (by simp)] at hml
          cases hml
        · rw [hd] at hml
          cases hml
    · rcases o2 with - | r
      · rw [hml] at hsm
        cases hsm
      · rcases r with ⟨st, en, caps⟩
        rw [hml] at hsm
        dsimp only at hsm
        rcases hmm2 : caps.mapM pushCapture with e5 | user
        · rw [hmm2] at hsm
          injection hsm with hsm
          obtain ⟨he5, c, hcmem, hcstop⟩ := mapM_pushCapture_error caps e5 hmm2
          rw [matchLoop] at hml
          rcases hd : domatch q [] (q.length + 1) 0
              (if (q.getD 0 0 == 94) = true then 1 else 0) [] with e4 | o3
          · rw [hd] at hml
            cases hml
          · rcases o3 with - | r2
            · rw [hd] at hml
              rw [if_neg (by simp)] at hml
              cases hml
            · rcases r2 with ⟨e0, caps0⟩
              rw [hd] at hml
              simp only [Except.ok.injEq, Option.some.injEq, Prod.mk.injEq] at hml
              obtain ⟨-, -, hcaps0⟩ := hml
              subst hcaps0
              have hA : Agrees
                  (checkFrom q (q.length + 1)
                    (if (q.getD 0 0 == 94) = true then 1 else 0) (List.map statusOf []))
                  (domatch q [] (q.length + 1) 0
                    (if (q.getD 0 0 == 94) = true then 1 else 0) []) :=
                checkFrom_agrees q [] (q.length + 1) 0
                  (if (q.getD 0 0 == 94) = true then 1 else 0) []
              rw [hd] at hA
              have hA2 : checkFrom q (q.length + 1)
                  (if (q.getD 0 0 == 94) = true then 1 else 0) [] =
                  .ok (caps0.map statusOf) := hA
              rw [str_check, hA2]
              dsimp only
              rw [if_pos (show ((caps0.map statusOf).any
                  (fun c => c == CapSt.unfinished)) = true from by
                rw [List.any_eq_true]
                exact ⟨statusOf c, List.mem_map_of_mem statusOf hcmem, by
                  rw [statusOf_beq_unfinished, hcstop]
                  rfl⟩), ← he5, hsm]
        · rw [hmm2] at hsm
          cases hsm
  · rw [hsm] at h
    cases h

/-- Witness for **C3** (amended): the pattern `"%"` — `try_new` reports the
§7 "malformed pattern (ends with percent)" error and so does the checker. -/
theorem c3_try_new_errors_are_structural_witness :
    try_new [37] = .error .endsPercent ∧ str_check [37] = .error .endsPercent :=
  ⟨by decide, c3_try_new_errors_are_structural [37] .endsPercent (by decide)⟩

end LuaPat
